import Mathlib

/-!
Verification of the metadata-capture core: the draft record store
(`agent/tools/metadata_store.py`), the capture orchestrator
(`agent/tools/capture_mcp.py`) and the validation engine
(`agent.validation`, modelled from the specification since only its tests
ship in the tree).  Python values exchanged with the store are modelled by
an inductive `Json` type; `json.dumps` / `json.loads` are modelled by a
JSON printer and parser over that type, with a proven decode-of-encode
round trip.  SQLite state is modelled as an explicit list of rows, and the
`datetime.now` / `uuid.uuid4` effects become explicit parameters.
-/

/-- Model of a decoded JSON value (a Python object handled by the store).
Numbers are modelled as integers; floating-point formatting is outside the
model. -/
inductive Json where
  | null : Json
  | bool (b : Bool) : Json
  | num (n : Int) : Json
  | str (s : String) : Json
  | arr (elems : List Json) : Json
  | obj (members : List (String × Json)) : Json
  deriving Repr

/-- The opening brace character, written via its code point. -/
def jsonLBrace : Char := Char.ofNat 123

/-- The closing brace character, written via its code point. -/
def jsonRBrace : Char := Char.ofNat 125

/-- Decimal digit character for a value below ten. -/
def digitChar (d : Nat) : Char := Char.ofNat (48 + d)

/-- Fuel-indexed digit printer (structural, so that the kernel can
evaluate it). -/
def natCharsAux : Nat → Nat → List Char
  | 0, _ => []
  | f + 1, n =>
    if n < 10 then [digitChar n]
    else natCharsAux f (n / 10) ++ [digitChar (n % 10)]

/-- Decimal digit characters of a natural number, most significant first. -/
def natChars (n : Nat) : List Char := natCharsAux (n + 1) n

theorem natCharsAux_irrel (n : Nat) : ∀ f g : Nat, n < f → n < g →
    natCharsAux f n = natCharsAux g n := by
  intro f g hf hg
  obtain ⟨f2, rfl⟩ : ∃ f2, f = f2 + 1 := ⟨f - 1, by omega⟩
  obtain ⟨g2, rfl⟩ : ∃ g2, g = g2 + 1 := ⟨g - 1, by omega⟩
  by_cases h : n < 10
  · simp [natCharsAux, h]
  · have hd : n / 10 < n := Nat.div_lt_self (by omega) (by omega)
    simp only [natCharsAux, if_neg h]
    rw [natCharsAux_irrel (n / 10) f2 (n / 10 + 1) (by omega) (by omega),
      natCharsAux_irrel (n / 10) g2 (n / 10 + 1) (by omega) (by omega)]
termination_by n
decreasing_by all_goals omega

/-- The defining recurrence of `natChars`. -/
theorem natChars_eq (n : Nat) : natChars n =
    if n < 10 then [digitChar n] else natChars (n / 10) ++ [digitChar (n % 10)] := by
  by_cases h : n < 10
  · simp [natChars, natCharsAux, h]
  · have hd : n / 10 < n := Nat.div_lt_self (by omega) (by omega)
    rw [if_neg h]
    show (if n < 10 then [digitChar n]
      else natCharsAux n (n / 10) ++ [digitChar (n % 10)]) =
        natChars (n / 10) ++ [digitChar (n % 10)]
    rw [if_neg h, natCharsAux_irrel (n / 10) n (n / 10 + 1) (by omega) (by omega)]
    rfl

/-- Is the character a decimal digit? -/
def isDig (c : Char) : Bool := 48 ≤ c.toNat && c.toNat ≤ 57

/-- Numeric value of a digit character. -/
def digVal (c : Char) : Nat := c.toNat - 48

/-- Escape a character for a JSON string literal (quote and backslash). -/
def escChar (c : Char) : List Char :=
  if c = '\\' ∨ c = '"' then ['\\', c] else [c]

/-- Escaped body of a JSON string literal. -/
def encStrBody : List Char → List Char
  | [] => []
  | c :: cs => escChar c ++ encStrBody cs

mutual

/-- JSON text of a value, as a character list (models `json.dumps`).
Structural recursion keeps it kernel-evaluable. -/
def Json.encChars : Json → List Char
  | .null => "null".data
  | .bool true => "true".data
  | .bool false => "false".data
  | .num n => if n < 0 then '-' :: natChars (-n).toNat else natChars n.toNat
  | .str s => '"' :: (encStrBody s.data ++ ['"'])
  | .arr [] => ['[', ']']
  | .arr (x :: xs) => '[' :: ((Json.encChars x ++ encElemsTail xs) ++ [']'])
  | .obj [] => [jsonLBrace, jsonRBrace]
  | .obj ((k, v) :: ms) =>
    jsonLBrace ::
      ((('"' :: (encStrBody k.data ++ '"' :: ':' :: Json.encChars v)) ++ encMembersTail ms)
        ++ [jsonRBrace])
termination_by structural v => v

/-- Remaining comma-prefixed array elements. -/
def encElemsTail : List Json → List Char
  | [] => []
  | y :: ys => ',' :: (Json.encChars y ++ encElemsTail ys)
termination_by structural l => l

/-- Remaining comma-prefixed object members. -/
def encMembersTail : List (String × Json) → List Char
  | [] => []
  | (k, v) :: ms =>
    ',' :: (('"' :: (encStrBody k.data ++ '"' :: ':' :: Json.encChars v)) ++ encMembersTail ms)
termination_by structural l => l

end

/-- JSON text of a single object member. -/
def encMember : String × Json → List Char
  | (k, v) => '"' :: (encStrBody k.data ++ '"' :: ':' :: Json.encChars v)

/-- JSON text of a nonempty comma-separated element list. -/
def encElems (x : Json) (xs : List Json) : List Char :=
  Json.encChars x ++ encElemsTail xs

/-- JSON text of a nonempty comma-separated member list. -/
def encMembers (m : String × Json) (ms : List (String × Json)) : List Char :=
  encMember m ++ encMembersTail ms

theorem encElems_nil (x : Json) : encElems x [] = Json.encChars x := by
  simp [encElems, encElemsTail]

theorem encElems_cons (x y : Json) (ys : List Json) :
    encElems x (y :: ys) = Json.encChars x ++ ',' :: encElems y ys := by
  simp [encElems, encElemsTail]

theorem encMembers_nil (m : String × Json) : encMembers m [] = encMember m := by
  simp [encMembers, encMembersTail]

theorem encMembers_cons (m m2 : String × Json) (ms : List (String × Json)) :
    encMembers m (m2 :: ms) = encMember m ++ ',' :: encMembers m2 ms := by
  obtain ⟨k2, v2⟩ := m2
  simp [encMembers, encMembersTail, encMember]

theorem encChars_arr_cons (x : Json) (xs : List Json) :
    Json.encChars (.arr (x :: xs)) = '[' :: (encElems x xs ++ [']']) := by
  simp [Json.encChars, encElems]

theorem encChars_obj_cons (m : String × Json) (ms : List (String × Json)) :
    Json.encChars (.obj (m :: ms)) = jsonLBrace :: (encMembers m ms ++ [jsonRBrace]) := by
  obtain ⟨k, v⟩ := m
  simp [Json.encChars, encMembers, encMember]

/-- Consume an expected literal character sequence. -/
def expects : List Char → List Char → Option (List Char)
  | [], l => some l
  | p :: ps, c :: cs => if c = p then expects ps cs else none
  | _ :: _, [] => none

/-- Consume a JSON string body after the opening quote, unescaping; returns
the content and the remainder after the closing quote. -/
def readStr : List Char → Option (List Char × List Char)
  | [] => none
  | c :: cs =>
    if c = '\\' then
      match cs with
      | [] => none
      | d :: cs2 => (readStr cs2).map (fun p => (d :: p.1, p.2))
    else if c = '"' then some ([], cs)
    else (readStr cs).map (fun p => (c :: p.1, p.2))

/-- Consume further digit characters, accumulating their value. -/
def readDigits (acc : Nat) : List Char → Nat × List Char
  | c :: cs => if isDig c then readDigits (acc * 10 + digVal c) cs else (acc, c :: cs)
  | [] => (acc, [])

/-- Consume a nonempty digit sequence. -/
def readNat : List Char → Option (Nat × List Char)
  | c :: cs => if isDig c then some (readDigits (digVal c) cs) else none
  | [] => none

mutual

/-- Fuel-indexed JSON parser for one value (models `json.loads`). -/
def parseVal : Nat → List Char → Option (Json × List Char)
  | 0, _ => none
  | f + 1, l =>
    match l with
    | [] => none
    | c :: r =>
      if c = 'n' then (expects ['u', 'l', 'l'] r).map (fun r2 => (Json.null, r2))
      else if c = 't' then (expects ['r', 'u', 'e'] r).map (fun r2 => (Json.bool true, r2))
      else if c = 'f' then (expects ['a', 'l', 's', 'e'] r).map (fun r2 => (Json.bool false, r2))
      else if c = '"' then (readStr r).map (fun p => (Json.str (String.mk p.1), p.2))
      else if c = '[' then
        match r with
        | [] => none
        | d :: r2 =>
          if d = ']' then some (Json.arr [], r2)
          else (parseElems f (d :: r2)).map (fun p => (Json.arr p.1, p.2))
      else if c = jsonLBrace then
        match r with
        | [] => none
        | d :: r2 =>
          if d = jsonRBrace then some (Json.obj [], r2)
          else (parseMembers f (d :: r2)).map (fun p => (Json.obj p.1, p.2))
      else if c = '-' then (readNat r).map (fun p => (Json.num (-(p.1 : Int)), p.2))
      else if isDig c then (readNat (c :: r)).map (fun p => (Json.num (p.1 : Int), p.2))
      else none

/-- Parse one or more comma-separated array elements up to the closing
bracket. -/
def parseElems : Nat → List Char → Option (List Json × List Char)
  | 0, _ => none
  | f + 1, l =>
    match parseVal f l with
    | none => none
    | some (x, r) =>
      match r with
      | [] => none
      | c :: r2 =>
        if c = ',' then (parseElems f r2).map (fun p => (x :: p.1, p.2))
        else if c = ']' then some ([x], r2)
        else none

/-- Parse one or more comma-separated object members up to the closing
brace. -/
def parseMembers : Nat → List Char → Option (List (String × Json) × List Char)
  | 0, _ => none
  | f + 1, l =>
    match l with
    | [] => none
    | c :: r =>
      if c = '"' then
        match readStr r with
        | none => none
        | some (k, r2) =>
          match r2 with
          | [] => none
          | c2 :: r3 =>
            if c2 = ':' then
              match parseVal f r3 with
              | none => none
              | some (v, r4) =>
                match r4 with
                | [] => none
                | c3 :: r5 =>
                  if c3 = ',' then
                    (parseMembers f r5).map (fun p => ((String.mk k, v) :: p.1, p.2))
                  else if c3 = jsonRBrace then some ([(String.mk k, v)], r5)
                  else none
            else none
      else none

end

mutual

/-- Parser fuel sufficient for a value's own JSON text (structural, so that
the kernel can evaluate it). -/
def Json.jfuel : Json → Nat
  | .null => 1
  | .bool _ => 1
  | .num _ => 1
  | .str _ => 1
  | .arr [] => 1
  | .arr (x :: xs) => 2 + Json.jfuel x + jfuelElemsTail xs
  | .obj [] => 1
  | .obj ((_, v) :: ms) => 2 + Json.jfuel v + jfuelMembersTail ms
termination_by structural v => v

/-- Parser fuel for the remaining array elements. -/
def jfuelElemsTail : List Json → Nat
  | [] => 0
  | y :: ys => 1 + Json.jfuel y + jfuelElemsTail ys
termination_by structural l => l

/-- Parser fuel for the remaining object members. -/
def jfuelMembersTail : List (String × Json) → Nat
  | [] => 0
  | (_, v) :: ms => 1 + Json.jfuel v + jfuelMembersTail ms
termination_by structural l => l

end

/-- Parser fuel for a nonempty element list. -/
def jfuelElems (x : Json) (xs : List Json) : Nat := 1 + Json.jfuel x + jfuelElemsTail xs

/-- Parser fuel for a nonempty member list. -/
def jfuelMembers (m : String × Json) (ms : List (String × Json)) : Nat :=
  1 + Json.jfuel m.2 + jfuelMembersTail ms

theorem jfuelElems_nil (x : Json) : jfuelElems x [] = 1 + Json.jfuel x := by
  simp [jfuelElems, jfuelElemsTail]

theorem jfuelElems_cons (x y : Json) (ys : List Json) :
    jfuelElems x (y :: ys) = 1 + Json.jfuel x + jfuelElems y ys := by
  simp only [jfuelElems, jfuelElemsTail]

theorem jfuelMembers_nil (k : String) (v : Json) :
    jfuelMembers (k, v) [] = 1 + Json.jfuel v := by
  simp [jfuelMembers, jfuelMembersTail]

theorem jfuelMembers_cons (k : String) (v : Json) (m2 : String × Json)
    (ms : List (String × Json)) :
    jfuelMembers (k, v) (m2 :: ms) = 1 + Json.jfuel v + jfuelMembers m2 ms := by
  obtain ⟨k2, v2⟩ := m2
  simp only [jfuelMembers, jfuelMembersTail]

theorem jfuel_arr_cons (x : Json) (xs : List Json) :
    Json.jfuel (.arr (x :: xs)) = 1 + jfuelElems x xs := by
  simp only [Json.jfuel, jfuelElems]
  omega

theorem jfuel_obj_cons (m : String × Json) (ms : List (String × Json)) :
    Json.jfuel (.obj (m :: ms)) = 1 + jfuelMembers m ms := by
  obtain ⟨k, v⟩ := m
  simp only [Json.jfuel, jfuelMembers]
  omega

/-- Full JSON text of a value (models `json.dumps`). -/
def Json.encode (v : Json) : String := String.mk v.encChars

/-- Parse a complete JSON document (models `json.loads`; `none` models the
`JSONDecodeError` outcome). -/
def Json.decode (s : String) : Option Json :=
  match parseVal (s.length + 1) s.data with
  | some (v, []) => some v
  | _ => none

/-- Does the remaining input avoid starting with a digit? -/
def headNotDig : List Char → Bool
  | [] => true
  | c :: _ => !isDig c

theorem expects_append (pat rest : List Char) : expects pat (pat ++ rest) = some rest := by
  induction pat with
  | nil => rfl
  | cons p ps ih => simp [expects, ih]

theorem readStr_enc (s rest : List Char) :
    readStr (encStrBody s ++ '"' :: rest) = some (s, rest) := by
  induction s with
  | nil =>
    show readStr ('"' :: rest) = some ([], rest)
    unfold readStr
    rw [if_neg (by decide), if_pos rfl]
  | cons c cs ih =>
    by_cases h : c = '\\' ∨ c = '"'
    · show readStr ((escChar c ++ encStrBody cs) ++ '"' :: rest) = _
      rw [escChar, if_pos h]
      simp only [List.cons_append, List.nil_append, List.append_assoc]
      unfold readStr
      rw [if_pos rfl]
      simp only [ih, Option.map_some']
    · push_neg at h
      obtain ⟨h1, h2⟩ := h
      show readStr ((escChar c ++ encStrBody cs) ++ '"' :: rest) = _
      rw [escChar, if_neg (by tauto)]
      simp only [List.cons_append, List.nil_append, List.append_assoc]
      unfold readStr
      rw [if_neg h1, if_neg h2, ih]
      rfl

theorem natChars_head (n : Nat) : ∃ c t, natChars n = c :: t ∧ isDig c = true := by
  by_cases h : n < 10
  · refine ⟨digitChar n, [], ?_, ?_⟩
    · simp [natChars_eq, h]
    · simp only [digitChar, isDig]
      interval_cases n <;> decide
  · rw [natChars_eq, if_neg h]
    obtain ⟨c, t, hct, hd⟩ := natChars_head (n / 10)
    exact ⟨c, t ++ [digitChar (n % 10)], by simp [hct], hd⟩
decreasing_by exact Nat.div_lt_self (by omega) (by omega)

theorem natChars_ne_nil (n : Nat) : natChars n ≠ [] := by
  obtain ⟨c, t, hct, _⟩ := natChars_head n
  simp [hct]

theorem readDigits_stop (acc : Nat) (l : List Char) (h : headNotDig l = true) :
    readDigits acc l = (acc, l) := by
  match l with
  | [] => rfl
  | c :: cs =>
    simp only [headNotDig, Bool.not_eq_true'] at h
    simp [readDigits, h]

theorem digVal_digitChar (d : Nat) (h : d < 10) : digVal (digitChar d) = d := by
  simp only [digVal, digitChar]
  interval_cases d <;> decide

theorem isDig_digitChar (d : Nat) (h : d < 10) : isDig (digitChar d) = true := by
  simp only [isDig, digitChar]
  interval_cases d <;> decide

theorem readDigits_natChars (n : Nat) : ∀ (acc : Nat) (rest : List Char),
    readDigits acc (natChars n ++ rest) =
      readDigits (acc * 10 ^ (natChars n).length + n) rest := by
  intro acc rest
  by_cases h : n < 10
  · rw [natChars_eq, if_pos h]
    simp [readDigits, isDig_digitChar n h, digVal_digitChar n h]
  · rw [natChars_eq, if_neg h]
    have ih := readDigits_natChars (n / 10) acc (digitChar (n % 10) :: rest)
    have hm : n % 10 < 10 := Nat.mod_lt _ (by omega)
    calc readDigits acc ((natChars (n / 10) ++ [digitChar (n % 10)]) ++ rest)
        = readDigits acc (natChars (n / 10) ++ (digitChar (n % 10) :: rest)) := by
          simp
      _ = readDigits (acc * 10 ^ (natChars (n / 10)).length + n / 10)
            (digitChar (n % 10) :: rest) := ih
      _ = readDigits ((acc * 10 ^ (natChars (n / 10)).length + n / 10) * 10 + n % 10)
            rest := by
          simp [readDigits, isDig_digitChar _ hm, digVal_digitChar _ hm]
      _ = readDigits (acc * 10 ^ (natChars (n / 10) ++ [digitChar (n % 10)]).length + n)
            rest := by
          congr 1
          rw [List.length_append, List.length_singleton, pow_succ]
          have := Nat.div_add_mod n 10
          ring_nf
          omega
decreasing_by exact Nat.div_lt_self (by omega) (by omega)

theorem readNat_natChars (n : Nat) (rest : List Char) (h : headNotDig rest = true) :
    readNat (natChars n ++ rest) = some (n, rest) := by
  obtain ⟨c, t, hct, hd⟩ := natChars_head n
  have h0 : readDigits 0 (natChars n ++ rest) = (n, rest) := by
    rw [readDigits_natChars, readDigits_stop _ _ h]
    simp
  rw [hct] at h0 ⊢
  simp only [List.cons_append, readNat, hd, if_true]
  simpa [readDigits, hd, Nat.zero_mul, Nat.zero_add] using h0

theorem isDig_ne (c : Char) (h : isDig c = true) :
    c ≠ 'n' ∧ c ≠ 't' ∧ c ≠ 'f' ∧ c ≠ '"' ∧ c ≠ '[' ∧ c ≠ jsonLBrace ∧ c ≠ '-' ∧ c ≠ ']' := by
  refine ⟨?_, ?_, ?_, ?_, ?_, ?_, ?_, ?_⟩ <;> rintro rfl <;> revert h <;> decide

theorem jfuel_pos (v : Json) : 1 ≤ v.jfuel := by
  cases v with
  | arr xs =>
    cases xs with
    | nil => simp [Json.jfuel]
    | cons x l =>
      simp only [Json.jfuel]
      omega
  | obj ms =>
    rcases ms with _ | ⟨⟨k, w⟩, l⟩
    · simp [Json.jfuel]
    · simp only [Json.jfuel]
      omega
  | _ => simp [Json.jfuel]

theorem jfuelElems_pos (x : Json) (xs : List Json) : 1 ≤ jfuelElems x xs := by
  simp only [jfuelElems]
  omega

theorem jfuelMembers_pos (m : String × Json) (ms : List (String × Json)) :
    1 ≤ jfuelMembers m ms := by
  simp only [jfuelMembers]
  omega

theorem string_mk_data (s : String) : String.mk s.data = s := rfl

theorem encChars_head (v : Json) : ∃ c t, v.encChars = c :: t ∧ c ≠ ']' := by
  cases v with
  | null => exact ⟨'n', ['u', 'l', 'l'], by simp [Json.encChars], by decide⟩
  | bool b =>
    cases b
    · exact ⟨'f', ['a', 'l', 's', 'e'], by simp [Json.encChars], by decide⟩
    · exact ⟨'t', ['r', 'u', 'e'], by simp [Json.encChars], by decide⟩
  | num n =>
    by_cases hn : n < 0
    · exact ⟨'-', natChars (-n).toNat, by simp [Json.encChars, hn], by decide⟩
    · obtain ⟨c, t, hct, hd⟩ := natChars_head n.toNat
      exact ⟨c, t, by simp [Json.encChars, hn, hct], (isDig_ne c hd).2.2.2.2.2.2.2⟩
  | str s => exact ⟨'"', encStrBody s.data ++ ['"'], by simp [Json.encChars], by decide⟩
  | arr xs =>
    cases xs with
    | nil => exact ⟨'[', [']'], by simp [Json.encChars], by decide⟩
    | cons x xs' => exact ⟨'[', encElems x xs' ++ [']'], by rw [encChars_arr_cons], by decide⟩
  | obj ms =>
    cases ms with
    | nil => exact ⟨jsonLBrace, [jsonRBrace], by simp [Json.encChars], by decide⟩
    | cons m ms' =>
      exact ⟨jsonLBrace, encMembers m ms' ++ [jsonRBrace], by rw [encChars_obj_cons], by decide⟩

theorem encElems_head (x : Json) (xs : List Json) :
    ∃ c t, encElems x xs = c :: t ∧ c ≠ ']' := by
  obtain ⟨c, t, hct, hne⟩ := encChars_head x
  cases xs with
  | nil => exact ⟨c, t, by rw [encElems_nil, hct], hne⟩
  | cons y ys =>
    exact ⟨c, t ++ ',' :: encElems y ys, by rw [encElems_cons, hct]; rfl, hne⟩

theorem encMembers_head (m : String × Json) (ms : List (String × Json)) :
    ∃ t, encMembers m ms = '"' :: t := by
  obtain ⟨k, v⟩ := m
  cases ms with
  | nil =>
    exact ⟨encStrBody k.data ++ '"' :: ':' :: Json.encChars v, by rw [encMembers_nil]; rfl⟩
  | cons m2 ms' =>
    exact ⟨(encStrBody k.data ++ '"' :: ':' :: Json.encChars v) ++ ',' :: encMembers m2 ms',
      by rw [encMembers_cons]; rfl⟩

mutual

theorem parseVal_enc : ∀ (v : Json) (f : Nat) (rest : List Char), v.jfuel ≤ f →
    headNotDig rest = true → parseVal f (v.encChars ++ rest) = some (v, rest)
  | .null, f, rest, hf, _hr => by
    obtain ⟨f', rfl⟩ : ∃ f', f = f' + 1 := ⟨f - 1, by have := jfuel_pos Json.null; omega⟩
    simp only [Json.encChars, List.cons_append, List.nil_append]
    simp only [parseVal, if_pos rfl]
    rw [show ('u' :: 'l' :: 'l' :: rest) = ['u', 'l', 'l'] ++ rest from rfl, expects_append]
    rfl
  | .bool false, f, rest, hf, _hr => by
    obtain ⟨f', rfl⟩ : ∃ f', f = f' + 1 := ⟨f - 1, by have := jfuel_pos (Json.bool false); omega⟩
    simp only [Json.encChars, List.cons_append, List.nil_append]
    simp only [parseVal]
    simp only [show ('f' : Char) ≠ 'n' from by decide, show ('f' : Char) ≠ 't' from by decide,
      if_neg, if_pos rfl, ite_false, ite_true]
    rw [show ('a' :: 'l' :: 's' :: 'e' :: rest) = ['a', 'l', 's', 'e'] ++ rest from rfl,
      expects_append]
    rfl
  | .bool true, f, rest, hf, _hr => by
    obtain ⟨f', rfl⟩ : ∃ f', f = f' + 1 := ⟨f - 1, by have := jfuel_pos (Json.bool true); omega⟩
    simp only [Json.encChars, List.cons_append, List.nil_append]
    simp only [parseVal]
    simp only [show ('t' : Char) ≠ 'n' from by decide, if_neg, if_pos rfl, ite_false, ite_true]
    rw [show ('r' :: 'u' :: 'e' :: rest) = ['r', 'u', 'e'] ++ rest from rfl, expects_append]
    rfl
  | .num n, f, rest, hf, hr => by
    obtain ⟨f', rfl⟩ : ∃ f', f = f' + 1 := ⟨f - 1, by have := jfuel_pos (Json.num n); omega⟩
    by_cases hn : n < 0
    · simp only [Json.encChars, if_pos hn, List.cons_append]
      simp only [parseVal]
      simp only [show ('-' : Char) ≠ 'n' from by decide, show ('-' : Char) ≠ 't' from by decide,
        show ('-' : Char) ≠ 'f' from by decide, show ('-' : Char) ≠ '"' from by decide,
        show ('-' : Char) ≠ '[' from by decide, show ('-' : Char) ≠ jsonLBrace from by decide,
        if_neg, if_pos rfl, ite_false, ite_true]
      rw [readNat_natChars _ _ hr]
      simp only [Option.map_some']
      rw [show (-((((-n).toNat : Nat)) : Int)) = n from by omega]
    · simp only [Json.encChars, if_neg hn]
      obtain ⟨c, t, hct, hd⟩ := natChars_head n.toNat
      obtain ⟨h1, h2, h3, h4, h5, h6, h7, h8⟩ := isDig_ne c hd
      rw [hct, List.cons_append]
      simp only [parseVal]
      simp only [h1, h2, h3, h4, h5, h6, h7, if_neg, ite_false, hd, if_pos, ite_true]
      rw [← List.cons_append, ← hct, readNat_natChars _ _ hr]
      simp only [Option.map_some']
      rw [show (((n.toNat : Nat)) : Int) = n from by omega]
  | .str s, f, rest, hf, _hr => by
    obtain ⟨f', rfl⟩ : ∃ f', f = f' + 1 := ⟨f - 1, by have := jfuel_pos (Json.str s); omega⟩
    simp only [Json.encChars, List.cons_append, List.append_assoc, List.singleton_append]
    simp only [parseVal]
    simp only [show ('"' : Char) ≠ 'n' from by decide, show ('"' : Char) ≠ 't' from by decide,
      show ('"' : Char) ≠ 'f' from by decide, if_neg, if_pos rfl, ite_false, ite_true]
    rw [readStr_enc]
    simp [string_mk_data]
  | .arr [], f, rest, hf, _hr => by
    obtain ⟨f', rfl⟩ : ∃ f', f = f' + 1 := ⟨f - 1, by have := jfuel_pos (Json.arr []); omega⟩
    simp only [Json.encChars, List.cons_append, List.nil_append]
    simp only [parseVal]
    simp only [show ('[' : Char) ≠ 'n' from by decide, show ('[' : Char) ≠ 't' from by decide,
      show ('[' : Char) ≠ 'f' from by decide, show ('[' : Char) ≠ '"' from by decide,
      if_neg, if_pos rfl, ite_false, ite_true]
  | .arr (x :: xs'), f, rest, hf, _hr => by
    obtain ⟨f', rfl⟩ : ∃ f', f = f' + 1 :=
      ⟨f - 1, by have := jfuel_pos (Json.arr (x :: xs')); omega⟩
    have hfe : jfuelElems x xs' ≤ f' := by
      rw [jfuel_arr_cons] at hf
      omega
    obtain ⟨d, t, hdt, hne⟩ := encElems_head x xs'
    rw [encChars_arr_cons]
    simp only [List.cons_append, List.append_assoc, List.singleton_append]
    simp only [parseVal]
    simp only [show ('[' : Char) ≠ 'n' from by decide, show ('[' : Char) ≠ 't' from by decide,
      show ('[' : Char) ≠ 'f' from by decide, show ('[' : Char) ≠ '"' from by decide,
      if_neg, if_pos rfl, ite_false, ite_true]
    rw [hdt, List.cons_append]
    simp only [hne, if_neg, ite_false, List.nil_append]
    rw [← List.cons_append, ← hdt, parseElems_enc x xs' f' rest hfe]
    rfl
  | .obj [], f, rest, hf, _hr => by
    obtain ⟨f', rfl⟩ : ∃ f', f = f' + 1 := ⟨f - 1, by have := jfuel_pos (Json.obj []); omega⟩
    simp only [Json.encChars, List.cons_append, List.nil_append]
    simp only [parseVal]
    simp only [show jsonLBrace ≠ 'n' from by decide, show jsonLBrace ≠ 't' from by decide,
      show jsonLBrace ≠ 'f' from by decide, show jsonLBrace ≠ '"' from by decide,
      show jsonLBrace ≠ '[' from by decide, if_neg, if_pos rfl, ite_false, ite_true]
  | .obj (m :: ms'), f, rest, hf, _hr => by
    obtain ⟨f', rfl⟩ : ∃ f', f = f' + 1 :=
      ⟨f - 1, by have := jfuel_pos (Json.obj (m :: ms')); omega⟩
    have hfm : jfuelMembers m ms' ≤ f' := by
      rw [jfuel_obj_cons] at hf
      omega
    obtain ⟨t, ht⟩ := encMembers_head m ms'
    rw [encChars_obj_cons]
    simp only [List.cons_append, List.append_assoc, List.singleton_append]
    simp only [parseVal]
    simp only [show jsonLBrace ≠ 'n' from by decide, show jsonLBrace ≠ 't' from by decide,
      show jsonLBrace ≠ 'f' from by decide, show jsonLBrace ≠ '"' from by decide,
      show jsonLBrace ≠ '[' from by decide, if_neg, if_pos rfl, ite_false, ite_true]
    rw [ht, List.cons_append]
    simp only [show ('"' : Char) ≠ jsonRBrace from by decide, if_neg, ite_false,
      List.nil_append]
    rw [← List.cons_append, ← ht, parseMembers_enc m ms' f' rest hfm]
    rfl
termination_by v f rest hf hr => sizeOf v
decreasing_by all_goals (simp_wf <;> omega)

theorem parseElems_enc : ∀ (x : Json) (xs : List Json) (f : Nat) (rest : List Char),
    jfuelElems x xs ≤ f → parseElems f (encElems x xs ++ ']' :: rest) = some (x :: xs, rest)
  | x, [], f, rest, hf => by
    obtain ⟨f', rfl⟩ : ∃ f', f = f' + 1 := ⟨f - 1, by have := jfuelElems_pos x []; omega⟩
    have hfx : x.jfuel ≤ f' := by
      rw [jfuelElems_nil] at hf
      omega
    rw [encElems_nil]
    simp only [parseElems]
    rw [parseVal_enc x f' (']' :: rest) hfx rfl]
    simp
  | x, y :: ys, f, rest, hf => by
    obtain ⟨f', rfl⟩ : ∃ f', f = f' + 1 :=
      ⟨f - 1, by have := jfuelElems_pos x (y :: ys); omega⟩
    have hfx : x.jfuel ≤ f' := by
      rw [jfuelElems_cons] at hf
      have := jfuelElems_pos y ys
      omega
    have hfe : jfuelElems y ys ≤ f' := by
      rw [jfuelElems_cons] at hf
      have := jfuel_pos x
      omega
    rw [encElems_cons]
    simp only [List.append_assoc, List.cons_append]
    simp only [parseElems]
    rw [parseVal_enc x f' (',' :: (encElems y ys ++ ']' :: rest)) hfx rfl]
    simp only [if_pos rfl, ite_true]
    rw [parseElems_enc y ys f' rest hfe]
    rfl
termination_by x xs f rest hf => 1 + sizeOf x + sizeOf xs
decreasing_by all_goals (simp_wf <;> omega)

theorem parseMembers_enc : ∀ (m : String × Json) (ms : List (String × Json)) (f : Nat)
    (rest : List Char), jfuelMembers m ms ≤ f →
    parseMembers f (encMembers m ms ++ jsonRBrace :: rest) = some (m :: ms, rest)
  | (k, v), [], f, rest, hf => by
    obtain ⟨f', rfl⟩ : ∃ f', f = f' + 1 :=
      ⟨f - 1, by have := jfuelMembers_pos (k, v) []; omega⟩
    have hfv : v.jfuel ≤ f' := by
      rw [jfuelMembers_nil] at hf
      omega
    rw [encMembers_nil]
    simp only [encMember, List.cons_append, List.append_assoc]
    simp only [parseMembers, if_pos rfl]
    rw [readStr_enc]
    simp only [if_pos rfl, ite_true]
    rw [parseVal_enc v f' (jsonRBrace :: rest) hfv rfl]
    simp only [show jsonRBrace ≠ ',' from by decide, if_neg, ite_false, if_pos rfl, ite_true]
  | (k, v), m2 :: ms', f, rest, hf => by
    obtain ⟨f', rfl⟩ : ∃ f', f = f' + 1 :=
      ⟨f - 1, by have := jfuelMembers_pos (k, v) (m2 :: ms'); omega⟩
    have hfv : v.jfuel ≤ f' := by
      rw [jfuelMembers_cons] at hf
      have := jfuelMembers_pos m2 ms'
      omega
    have hfm : jfuelMembers m2 ms' ≤ f' := by
      rw [jfuelMembers_cons] at hf
      have := jfuel_pos v
      omega
    rw [encMembers_cons]
    simp only [encMember, List.cons_append, List.append_assoc]
    simp only [parseMembers, if_pos rfl]
    rw [readStr_enc]
    simp only [if_pos rfl, ite_true]
    rw [parseVal_enc v f' (',' :: (encMembers m2 ms' ++ jsonRBrace :: rest)) hfv rfl]
    simp only [if_pos rfl, ite_true]
    rw [parseMembers_enc m2 ms' f' rest hfm]
    simp [string_mk_data]
termination_by m ms f rest hf => 1 + sizeOf m + sizeOf ms
decreasing_by all_goals (simp_wf <;> omega)

end

mutual

theorem jfuel_le_enc : ∀ (v : Json), v.jfuel ≤ v.encChars.length
  | .null => by simp [Json.jfuel, Json.encChars]
  | .bool b => by cases b <;> simp [Json.jfuel, Json.encChars]
  | .num n => by
    have h1 : 0 < (natChars n.toNat).length :=
      List.length_pos.mpr (natChars_ne_nil _)
    have h2 : 0 < (natChars (-n).toNat).length :=
      List.length_pos.mpr (natChars_ne_nil _)
    by_cases hn : n < 0
    · simp only [Json.jfuel, Json.encChars, if_pos hn, List.length_cons]
      omega
    · simp only [Json.jfuel, Json.encChars, if_neg hn]
      omega
  | .str s => by simp [Json.jfuel, Json.encChars]
  | .arr [] => by simp [Json.jfuel, Json.encChars]
  | .arr (x :: xs) => by
    have h := jfuelElems_le x xs
    rw [jfuel_arr_cons, encChars_arr_cons]
    simp only [List.length_cons, List.length_append]
    omega
  | .obj [] => by simp [Json.jfuel, Json.encChars]
  | .obj (m :: ms) => by
    have h := jfuelMembers_le m ms
    rw [jfuel_obj_cons, encChars_obj_cons]
    simp only [List.length_cons, List.length_append]
    omega
termination_by v => sizeOf v
decreasing_by all_goals (simp_wf <;> omega)

theorem jfuelElems_le : ∀ (x : Json) (xs : List Json),
    jfuelElems x xs ≤ (encElems x xs).length + 1
  | x, [] => by
    have := jfuel_le_enc x
    rw [jfuelElems_nil, encElems_nil]
    omega
  | x, y :: ys => by
    have h1 := jfuel_le_enc x
    have h2 := jfuelElems_le y ys
    rw [jfuelElems_cons, encElems_cons]
    simp only [List.length_append, List.length_cons]
    omega
termination_by x xs => 1 + sizeOf x + sizeOf xs
decreasing_by all_goals (simp_wf <;> omega)

theorem jfuelMembers_le : ∀ (m : String × Json) (ms : List (String × Json)),
    jfuelMembers m ms ≤ (encMembers m ms).length + 1
  | (k, v), [] => by
    have := jfuel_le_enc v
    rw [jfuelMembers_nil, encMembers_nil]
    simp only [encMember, List.length_cons, List.length_append]
    omega
  | (k, v), m2 :: ms' => by
    have h1 := jfuel_le_enc v
    have h2 := jfuelMembers_le m2 ms'
    rw [jfuelMembers_cons, encMembers_cons]
    simp only [encMember, List.length_cons, List.length_append]
    omega
termination_by m ms => 1 + sizeOf m + sizeOf ms
decreasing_by all_goals (simp_wf <;> omega)

end

/-- `json.loads` inverts `json.dumps` on every modelled value. -/
theorem Json.decode_encode (v : Json) : Json.decode (Json.encode v) = some v := by
  have hlen : v.jfuel ≤ (Json.encode v).length + 1 := by
    have h := jfuel_le_enc v
    have h2 : (Json.encode v).length = v.encChars.length := rfl
    omega
  unfold Json.decode
  have hdata : (Json.encode v).data = v.encChars := rfl
  rw [hdata]
  have h := parseVal_enc v ((Json.encode v).length + 1) [] hlen rfl
  rw [List.append_nil] at h
  rw [h]

/-- One row of the `draft_metadata` table (`agent/db/models.py`).  Timestamps
are modelled as naturals (ISO strings compare chronologically); text columns
that may be NULL are options. -/
structure DraftRow where
  id : String
  session_id : String
  status : String
  created_at : Nat
  updated_at : Nat
  subject_json : Option String := none
  procedures_json : Option String := none
  data_description_json : Option String := none
  instrument_json : Option String := none
  acquisition_json : Option String := none
  session_json : Option String := none
  processing_json : Option String := none
  quality_control_json : Option String := none
  rig_json : Option String := none
  validation_results_json : Option String := none
  deriving DecidableEq, Repr

/-- The METADATA_FIELDS tuple of `metadata_store.py`. -/
def METADATA_FIELDS : List String :=
  ["subject_json", "procedures_json", "data_description_json", "instrument_json",
   "acquisition_json", "session_json", "processing_json", "quality_control_json", "rig_json"]

/-- Read a JSON text column of a row by column name. -/
def DraftRow.getCol (r : DraftRow) (c : String) : Option String :=
  if c = "subject_json" then r.subject_json
  else if c = "procedures_json" then r.procedures_json
  else if c = "data_description_json" then r.data_description_json
  else if c = "instrument_json" then r.instrument_json
  else if c = "acquisition_json" then r.acquisition_json
  else if c = "session_json" then r.session_json
  else if c = "processing_json" then r.processing_json
  else if c = "quality_control_json" then r.quality_control_json
  else if c = "rig_json" then r.rig_json
  else if c = "validation_results_json" then r.validation_results_json
  else none

/-- Write a JSON text column of a row by column name (the `UPDATE ... SET`). -/
def DraftRow.setCol (r : DraftRow) (c : String) (v : String) : DraftRow :=
  if c = "subject_json" then { r with subject_json := some v }
  else if c = "procedures_json" then { r with procedures_json := some v }
  else if c = "data_description_json" then { r with data_description_json := some v }
  else if c = "instrument_json" then { r with instrument_json := some v }
  else if c = "acquisition_json" then { r with acquisition_json := some v }
  else if c = "session_json" then { r with session_json := some v }
  else if c = "processing_json" then { r with processing_json := some v }
  else if c = "quality_control_json" then { r with quality_control_json := some v }
  else if c = "rig_json" then { r with rig_json := some v }
  else if c = "validation_results_json" then { r with validation_results_json := some v }
  else r

/-- The double-serialization guard of `save_draft_metadata` (lines 76-83) and
`update_draft_metadata` (lines 157-165): a string that parses as JSON is
stored verbatim, any other value is freshly encoded. -/
def serializeValue (v : Json) : String :=
  match v with
  | .str s =>
    match Json.decode s with
    | some _ => s
    | none => Json.encode (.str s)
  | _ => Json.encode v

/-- Per-column decode step of `_row_to_dict`: a NULL or empty text is left
as is (`if d.get(field)` is falsy), parseable text becomes the structure,
malformed text stays the raw string. -/
def decodeField : Option String → Option Json
  | none => none
  | some t =>
    if t = "" then some (.str t)
    else
      match Json.decode t with
      | some j => some j
      | none => some (.str t)

/-- A row as returned to callers by `_row_to_dict`: every JSON column decoded
to a structure where possible. -/
structure DecodedRow where
  id : String
  session_id : String
  status : String
  created_at : Nat
  updated_at : Nat
  subject_json : Option Json
  procedures_json : Option Json
  data_description_json : Option Json
  instrument_json : Option Json
  acquisition_json : Option Json
  session_json : Option Json
  processing_json : Option Json
  quality_control_json : Option Json
  rig_json : Option Json
  validation_results_json : Option Json
  deriving Repr

/-- `_row_to_dict` (metadata_store.py lines 29-43). -/
def rowToDict (r : DraftRow) : DecodedRow :=
  { id := r.id
    session_id := r.session_id
    status := r.status
    created_at := r.created_at
    updated_at := r.updated_at
    subject_json := decodeField r.subject_json
    procedures_json := decodeField r.procedures_json
    data_description_json := decodeField r.data_description_json
    instrument_json := decodeField r.instrument_json
    acquisition_json := decodeField r.acquisition_json
    session_json := decodeField r.session_json
    processing_json := decodeField r.processing_json
    quality_control_json := decodeField r.quality_control_json
    rig_json := decodeField r.rig_json
    validation_results_json := decodeField r.validation_results_json }

/-- Read a decoded JSON column by column name. -/
def DecodedRow.getCol (d : DecodedRow) (c : String) : Option Json :=
  if c = "subject_json" then d.subject_json
  else if c = "procedures_json" then d.procedures_json
  else if c = "data_description_json" then d.data_description_json
  else if c = "instrument_json" then d.instrument_json
  else if c = "acquisition_json" then d.acquisition_json
  else if c = "session_json" then d.session_json
  else if c = "processing_json" then d.processing_json
  else if c = "quality_control_json" then d.quality_control_json
  else if c = "rig_json" then d.rig_json
  else if c = "validation_results_json" then d.validation_results_json
  else none

/-- Stable insertion into a `created_at`-descending list (model of SQL
`ORDER BY created_at DESC`, resolving ties by insertion order). -/
def insertDesc (r : DraftRow) : List DraftRow → List DraftRow
  | [] => [r]
  | x :: xs => if x.created_at ≤ r.created_at then r :: x :: xs else x :: insertDesc r xs

/-- Stable sort of rows by `created_at` descending. -/
def sortDesc : List DraftRow → List DraftRow
  | [] => []
  | a :: l => insertDesc a (sortDesc l)

/-- `SELECT ... WHERE session_id = ? ORDER BY created_at DESC LIMIT 1`. -/
def latestFor (db : List DraftRow) (sid : String) : Option DraftRow :=
  (sortDesc (db.filter (fun r => r.session_id = sid))).head?

/-- `get_draft_metadata` (metadata_store.py lines 99-120). -/
def get_draft_metadata (db : List DraftRow) (sid : String) : Option DecodedRow :=
  (latestFor db sid).map rowToDict

/-- The row inserted by `save_draft_metadata`: status `draft`, both
timestamps `now`, and one column per recognized key of the input, run
through the serialization guard.  Keys that name no recognized section
contribute nothing. -/
def mkDraftRow (newId : String) (now : Nat) (sid : String)
    (md : List (String × Json)) : DraftRow :=
  { id := newId
    session_id := sid
    status := "draft"
    created_at := now
    updated_at := now
    subject_json := (List.lookup "subject" md).map serializeValue
    procedures_json := (List.lookup "procedures" md).map serializeValue
    data_description_json := (List.lookup "data_description" md).map serializeValue
    instrument_json := (List.lookup "instrument" md).map serializeValue
    acquisition_json := (List.lookup "acquisition" md).map serializeValue
    session_json := (List.lookup "session" md).map serializeValue
    processing_json := (List.lookup "processing" md).map serializeValue
    quality_control_json := (List.lookup "quality_control" md).map serializeValue
    rig_json := (List.lookup "rig" md).map serializeValue
    validation_results_json := none }

/-- `save_draft_metadata` (metadata_store.py lines 46-96): insert a fresh
draft row, then return the session's current draft. -/
def save_draft_metadata (db : List DraftRow) (newId : String) (now : Nat) (sid : String)
    (md : List (String × Json)) : List DraftRow × Option DecodedRow :=
  let db2 := db ++ [mkDraftRow newId now sid md]
  (db2, get_draft_metadata db2 sid)

/-- Outcome of `update_draft_metadata`: the refreshed row, the `None` of a
missing draft, or the `error` mapping for an unknown field. -/
inductive UpdateResult where
  | row (d : DecodedRow) : UpdateResult
  | notFound : UpdateResult
  | err (msg : String) : UpdateResult

/-- Is the outcome the `error` mapping? -/
def UpdateResult.isErr : UpdateResult → Bool
  | .err _ => true
  | _ => false

/-- Models Python `field.endswith("_json")` (kept kernel-evaluable by
comparing the reversed character lists). -/
def hasJsonSuffix (s : String) : Bool :=
  s.data.reverse.take 5 == "_json".data.reverse

/-- Column targeted by an `update_draft_metadata` field name: the `_json`
suffix is appended unless already present (line 141). -/
def normalizeCol (field : String) : String :=
  if hasJsonSuffix field then field else field ++ "_json"

/-- `update_draft_metadata` (metadata_store.py lines 123-172). -/
def update_draft_metadata (db : List DraftRow) (now : Nat) (sid field : String)
    (value : Json) : List DraftRow × UpdateResult :=
  let col := normalizeCol field
  if col ∉ METADATA_FIELDS ∧ col ≠ "validation_results_json" then
    (db, .err ("Unknown metadata field: " ++ field))
  else
    match latestFor db sid with
    | none => (db, .notFound)
    | some r =>
      let s := serializeValue value
      let db2 := db.map fun x =>
        if x.id = r.id then { x.setCol col s with updated_at := now } else x
      (db2,
        match get_draft_metadata db2 sid with
        | some d => .row d
        | none => .notFound)

/-- `list_all_drafts` (metadata_store.py lines 175-199); `if status_filter:`
treats an empty-string filter as absent. -/
def list_all_drafts (db : List DraftRow) (statusFilter : Option String) : List DecodedRow :=
  match statusFilter with
  | some st =>
    if st = "" then (sortDesc db).map rowToDict
    else (sortDesc (db.filter (fun r => r.status = st))).map rowToDict
  | none => (sortDesc db).map rowToDict

/-- `confirm_metadata` (metadata_store.py lines 202-231). -/
def confirm_metadata (db : List DraftRow) (now : Nat) (sid : String) :
    List DraftRow × Option DecodedRow :=
  match latestFor db sid with
  | none => (db, none)
  | some r =>
    let db2 := db.map fun x =>
      if x.id = r.id then { x with status := "confirmed", updated_at := now } else x
    (db2, get_draft_metadata db2 sid)

/-- A single validation issue (field path, message, severity). -/
structure ValidationIssue where
  field : String
  message : String
  severity : String
  deriving DecidableEq, Repr

/-- The structured verdict of the validation engine. -/
structure ValidationResult where
  status : String
  completeness_score : ℚ
  missing_required : List String
  valid_fields : List String
  issues : List ValidationIssue
  deriving DecidableEq, Repr

/-- Key lookup inside a decoded JSON mapping. -/
def getKey (j : Json) (k : String) : Option Json :=
  match j with
  | .obj ms => List.lookup k ms
  | _ => none

/-- Lookup of a dotted two-segment path in a snapshot. -/
def getPath (snap : List (String × Json)) (sec key : String) : Option Json :=
  match List.lookup sec snap with
  | some j => getKey j key
  | none => none

/-- Modelled from the spec: `agent.validation.VALID_SEX`. -/
def VALID_SEX : List String := ["Male", "Female"]

/-- Modelled from the spec: the fixed known-modality abbreviation set. -/
def KNOWN_MODALITIES : List String :=
  ["behavior", "behavior-videos", "confocal", "EMG", "ecephys", "fib", "fMOST",
   "icephys", "ISI", "MRI", "merfish", "pophys", "slap", "SPIM"]

/-- Modelled from the spec: the recognized species names. -/
def KNOWN_SPECIES : List String := ["Mus musculus", "Homo sapiens"]

/-- Modelled from the spec: the physiology-style modalities (`ecephys`,
`pophys`, "and siblings"); the exact sibling set is not pinned down by the
spec, only that it contains the physiology modalities and excludes
imaging-style ones such as `SPIM` and `confocal`. -/
def PHYSIOLOGY_MODALITIES : List String :=
  ["ecephys", "pophys", "icephys", "fib", "EMG", "slap"]

/-- Modelled from the spec: the minimum `subject_id` length threshold; the
spec fixes only its existence, the tests bound it to the interval 3..6. -/
def MIN_SUBJECT_ID_LENGTH : Nat := 4

/-- The three required field paths, in rule order. -/
def REQUIRED_PATHS : List (String × String) :=
  [("subject", "subject_id"), ("data_description", "modality"),
   ("data_description", "project_name")]

/-- Modelled from the spec: required paths absent from the snapshot. -/
def missingRequired (snap : List (String × Json)) : List String :=
  REQUIRED_PATHS.filterMap fun p =>
    if (getPath snap p.1 p.2).isNone then some (p.1 ++ "." ++ p.2) else none

/-- Number of required paths present. -/
def presentCount (snap : List (String × Json)) : Nat :=
  (REQUIRED_PATHS.filter fun p => (getPath snap p.1 p.2).isSome).length

/-- Modelled from the spec: `subject.sex` enumeration rule (error severity). -/
def sexIssues (snap : List (String × Json)) : List ValidationIssue :=
  match getPath snap "subject" "sex" with
  | some (.str x) =>
    if x ∈ VALID_SEX then []
    else [⟨"subject.sex", "sex must be Male or Female", "error"⟩]
  | some _ => [⟨"subject.sex", "sex must be Male or Female", "error"⟩]
  | none => []

/-- Issues contributed by one modality entry. -/
def modalityEntryIssue (e : Json) : List ValidationIssue :=
  match getKey e "abbreviation" with
  | some (.str a) =>
    if a ∈ KNOWN_MODALITIES then []
    else [⟨"data_description.modality", "unknown modality abbreviation", "error"⟩]
  | _ => []

/-- Modelled from the spec: every `data_description.modality[].abbreviation`
must belong to the known-modality set. -/
def modalityIssues (snap : List (String × Json)) : List ValidationIssue :=
  match getPath snap "data_description" "modality" with
  | some (.arr es) => es.flatMap modalityEntryIssue
  | _ => []

/-- Modelled from the spec: unrecognized `subject.species.name` warns. -/
def speciesIssues (snap : List (String × Json)) : List ValidationIssue :=
  match getPath snap "subject" "species" with
  | some j =>
    match getKey j "name" with
    | some (.str n) =>
      if n ∈ KNOWN_SPECIES then []
      else [⟨"subject.species.name", "species not recognized", "warning"⟩]
    | _ => []
  | none => []

/-- Modelled from the spec: a too-short `subject.subject_id` warns. -/
def subjectIdIssues (snap : List (String × Json)) : List ValidationIssue :=
  match getPath snap "subject" "subject_id" with
  | some (.str s) =>
    if s.length < MIN_SUBJECT_ID_LENGTH then
      [⟨"subject.subject_id", "subject_id looks too short", "warning"⟩]
    else []
  | _ => []

/-- Modelled from the spec: non-positive `procedures.section_thickness_um`
is an error. -/
def thicknessIssues (snap : List (String × Json)) : List ValidationIssue :=
  match getPath snap "procedures" "section_thickness_um" with
  | some (.num t) =>
    if t ≤ 0 then
      [⟨"procedures.section_thickness_um", "section thickness must be positive", "error"⟩]
    else []
  | _ => []

/-- Does some modality entry carry a physiology-style abbreviation? -/
def hasPhysiologyModality (snap : List (String × Json)) : Bool :=
  match getPath snap "data_description" "modality" with
  | some (.arr es) =>
    es.any fun e =>
      match getKey e "abbreviation" with
      | some (.str a) => a ∈ PHYSIOLOGY_MODALITIES
      | _ => false
  | _ => false

/-- Modelled from the spec: the cross-field rule — physiology modality with
no `session` section at all warns, keyed on field `session`. -/
def sessionIssues (snap : List (String × Json)) : List ValidationIssue :=
  if hasPhysiologyModality snap && (List.lookup "session" snap).isNone then
    [⟨"session", "physiology data is expected to carry session timing", "warning"⟩]
  else []

/-- Modelled from the spec: field paths that were checked and passed. -/
def validFields (snap : List (String × Json)) : List String :=
  (match getPath snap "subject" "subject_id" with
   | some (.str s) => if s.length < MIN_SUBJECT_ID_LENGTH then [] else ["subject.subject_id"]
   | some _ => ["subject.subject_id"]
   | none => []) ++
  (match getPath snap "data_description" "modality" with
   | some (.arr es) =>
     if (es.flatMap modalityEntryIssue).isEmpty then ["data_description.modality"] else []
   | some _ => ["data_description.modality"]
   | none => []) ++
  (if (getPath snap "data_description" "project_name").isSome then
    ["data_description.project_name"] else []) ++
  (match getPath snap "procedures" "section_thickness_um" with
   | some (.num t) => if 0 < t then ["procedures.section_thickness_um"] else []
   | _ => []) ++
  (match getPath snap "procedures" "coordinates" with
   | some (.obj _) => ["procedures.coordinates"]
   | _ => [])

/-- Modelled from the spec: `agent.validation.validate_metadata`, the pure
validation engine over a snapshot of bare section names (the module itself
is not in the tree; rules follow spec section 4.2). -/
def validate_metadata (snap : List (String × Json)) : ValidationResult :=
  let issues := sexIssues snap ++ modalityIssues snap ++ speciesIssues snap ++
    subjectIdIssues snap ++ thicknessIssues snap ++ sessionIssues snap
  { status := if issues.any (fun i => i.severity = "error") then "errors" else "valid"
    completeness_score := (presentCount snap : ℚ) / 3
    missing_required := missingRequired snap
    valid_fields := validFields snap
    issues := issues }

/-- JSON form of one issue (for the persisted `to_dict` result). -/
def ValidationIssue.toJson (i : ValidationIssue) : Json :=
  .obj [("field", .str i.field), ("message", .str i.message), ("severity", .str i.severity)]

/-- Modelled from the spec: `ValidationResult.to_dict`, as persisted into
`validation_results`.  The fractional score is carried as text because
floating-point formatting is outside the `Json` model; no claim inspects
this persisted blob. -/
def ValidationResult.toJson (r : ValidationResult) : Json :=
  .obj [("status", .str r.status),
        ("completeness_score", .str (toString r.completeness_score)),
        ("errors", .arr ((r.issues.filter (fun i => i.severity = "error")).map
          ValidationIssue.toJson)),
        ("warnings", .arr ((r.issues.filter (fun i => i.severity = "warning")).map
          ValidationIssue.toJson)),
        ("missing_required", .arr (r.missing_required.map Json.str)),
        ("valid_fields", .arr (r.valid_fields.map Json.str))]

/-- Python `dict(existing, **incoming)` i.e. `\x7b**existing, **incoming\x7d`:
the shallow union in which existing top-level keys keep their place but take
the incoming value when one exists, and keys only in the incoming mapping
follow (capture_mcp.py line 89). -/
def dictUnion (e v : List (String × Json)) : List (String × Json) :=
  (e.map fun p =>
    match List.lookup p.1 v with
    | some w => (p.1, w)
    | none => p) ++
  v.filter fun p => (List.lookup p.1 e).isNone

/-- Arguments of the `capture_metadata` tool.  `none` models both an absent
key and an explicit Python `None` (the handler distinguishes them nowhere). -/
structure CaptureArgs where
  session_id : Option String := none
  subject : Option Json := none
  data_description : Option Json := none
  session : Option Json := none
  procedures : Option Json := none
  instrument : Option Json := none
  acquisition : Option Json := none
  processing : Option Json := none
  quality_control : Option Json := none
  rig : Option Json := none
  deriving Repr

/-- `args.get(field)` for the nine section fields. -/
def CaptureArgs.get (a : CaptureArgs) (f : String) : Option Json :=
  if f = "subject" then a.subject
  else if f = "data_description" then a.data_description
  else if f = "session" then a.session
  else if f = "procedures" then a.procedures
  else if f = "instrument" then a.instrument
  else if f = "acquisition" then a.acquisition
  else if f = "processing" then a.processing
  else if f = "quality_control" then a.quality_control
  else if f = "rig" then a.rig
  else none

/-- The `metadata_fields` list of `capture_metadata_handler` (lines 40-50). -/
def captureFields : List String :=
  ["subject", "data_description", "session", "procedures", "instrument",
   "acquisition", "processing", "quality_control", "rig"]

/-- The per-value normalisation of the collection loop (lines 58-62): a
string argument that parses as JSON is replaced by the parsed structure. -/
def parseArgValue (v : Json) : Json :=
  match v with
  | .str s =>
    match Json.decode s with
    | some j => j
    | none => .str s
  | _ => v

/-- The `metadata` mapping collected by the handler (lines 52-63). -/
def collectMetadata (args : CaptureArgs) : List (String × Json) :=
  captureFields.filterMap fun f => (args.get f).map fun v => (f, parseArgValue v)

/-- Observable outcome of `capture_metadata_handler`: a structured error
text or the saved summary. -/
inductive CaptureResponse where
  | errorText (msg : String) : CaptureResponse
  | saved (sid : String) (fieldsSaved : List String) : CaptureResponse
  deriving DecidableEq, Repr

/-- The "no fields" error text of the handler (line 70). -/
def noFieldsMsg : String :=
  "No metadata fields provided. Include at least one of: subject, data_description, session, procedures, instrument, acquisition, processing, quality_control, rig"

/-- Bare-key view of a decoded draft row handed to the validation engine
(lines 100-104): every non-NULL `*_json` section column except the
validation one, keyed by its bare name. -/
def bareSections (d : DecodedRow) : List (String × Json) :=
  METADATA_FIELDS.filterMap fun c =>
    (d.getCol c).map fun v => (c.replace "_json" "", v)

/-- One iteration of the handler's merge loop (capture_mcp.py lines 85-92):
merge the incoming section into the (pre-loop) draft value and write it
back through `update_draft_metadata`. -/
def captureMergeStep (draft : DecodedRow) (now : Nat) (sid : String)
    (dbAcc : List DraftRow) (p : String × Json) : List DraftRow :=
  match draft.getCol (p.1 ++ "_json"), p.2 with
  | some (.obj e), .obj v =>
    (update_draft_metadata dbAcc now sid p.1 (.obj (dictUnion e v))).1
  | _, _ => (update_draft_metadata dbAcc now sid p.1 p.2).1

/-- `capture_metadata_handler` (capture_mcp.py lines 23-138): validate the
request, create or shallow-merge the draft, re-validate, persist the
validation result, and report.  A fresh row id and the current time arrive
as parameters. -/
def capture_metadata_handler (db : List DraftRow) (newId : String) (now : Nat)
    (args : CaptureArgs) : List DraftRow × CaptureResponse :=
  match args.session_id with
  | none => (db, .errorText "Error: session_id is required")
  | some sid =>
    if sid = "" then (db, .errorText "Error: session_id is required")
    else
      let metadata := collectMetadata args
      if metadata.isEmpty then (db, .errorText noFieldsMsg)
      else
        let db1 :=
          match get_draft_metadata db sid with
          | none => (save_draft_metadata db newId now sid metadata).1
          | some draft =>
            metadata.foldl (captureMergeStep draft now sid) db
        let db2 :=
          match get_draft_metadata db1 sid with
          | none => db1
          | some d =>
            (update_draft_metadata db1 now sid "validation_results"
              (validate_metadata (bareSections d)).toJson).1
        (db2, .saved sid (metadata.map Prod.fst))

/-- C5: `validate` applied to the empty snapshot yields completeness score
0.0, a `missing_required` list holding exactly the three required paths,
and overall status `valid` — absent required fields surface only in
`missing_required` and the score, never in the status. -/
theorem validate_empty_snapshot :
    (validate_metadata []).completeness_score = 0 ∧
    (validate_metadata []).missing_required =
      ["subject.subject_id", "data_description.modality", "data_description.project_name"] ∧
    (validate_metadata []).status = "valid" := by
  refine ⟨?_, by decide, by decide⟩
  show ((0 : Nat) : ℚ) / 3 = 0
  norm_num

/-- C3 counterexample: the field name `subject_json` is neither one of the
nine recognized section names nor the reserved name `validation_results`,
yet `update_draft_metadata` does not report an error for it and does mutate
the draft record (the `_json` suffix is only appended when missing, so
suffixed spellings are accepted too). -/
theorem update_field_suffixed_accepted :
    ("subject_json" ∉ captureFields ++ ["validation_results"]) ∧
    (update_draft_metadata
        [{ id := "r1", session_id := "s", status := "draft", created_at := 0,
           updated_at := 0 }] 5 "s" "subject_json" (Json.obj [])).2.isErr = false ∧
    (update_draft_metadata
        [{ id := "r1", session_id := "s", status := "draft", created_at := 0,
           updated_at := 0 }] 5 "s" "subject_json" (Json.obj [])).1 ≠
      [{ id := "r1", session_id := "s", status := "draft", created_at := 0,
         updated_at := 0 }] :=
  ⟨by decide, by decide, by decide⟩

/-- C3 amended: a field name whose `_json`-normalized spelling is neither
one of the nine section columns nor `validation_results_json` makes
`update_draft_metadata` return the explicit unknown-field error and leave
the store untouched; being a total function, it never raises. -/
theorem update_unknown_field (db : List DraftRow) (now : Nat) (sid field : String)
    (value : Json)
    (h : normalizeCol field ∉ METADATA_FIELDS ∧ normalizeCol field ≠ "validation_results_json") :
    update_draft_metadata db now sid field value =
      (db, .err ("Unknown metadata field: " ++ field)) := by
  unfold update_draft_metadata
  rw [if_pos h]

/-- C3 amended, witness: the unrecognized field name `bogus` is rejected
without touching the store. -/
theorem update_unknown_field_witness :
    update_draft_metadata [] 0 "s" "bogus" Json.null =
      ([], .err ("Unknown metadata field: " ++ "bogus")) :=
  update_unknown_field [] 0 "s" "bogus" Json.null (by decide)

/-- C4: the capture orchestrator rejects a missing or empty `session_id`
with the "session_id is required" error and rejects a request whose nine
section values are all absent (Python `None`) with the "no fields provided"
error; both rejections return the structured error without touching the
store, and the handler is a total function, so it never raises. -/
theorem capture_rejects_bad_requests (db : List DraftRow) (newId : String) (now : Nat)
    (args : CaptureArgs) :
    ((args.session_id = none ∨ args.session_id = some "") →
      capture_metadata_handler db newId now args =
        (db, .errorText "Error: session_id is required")) ∧
    (∀ sid, args.session_id = some sid → sid ≠ "" →
      (∀ f ∈ captureFields, args.get f = none) →
      capture_metadata_handler db newId now args = (db, .errorText noFieldsMsg)) := by
  constructor
  · rintro (h | h) <;> simp [capture_metadata_handler, h]
  · intro sid hsid hne hnone
    have hmeta : collectMetadata args = [] := by
      simp only [collectMetadata, List.filterMap_eq_nil_iff]
      intro f hf
      rw [hnone f hf]
      rfl
    simp [capture_metadata_handler, hsid, hne, hmeta]

/-- C4 witness: an empty `session_id` and an all-absent section list are
both rejected on concrete inputs. -/
theorem capture_rejects_bad_requests_witness :
    capture_metadata_handler [] "i" 0 { session_id := some "" } =
      ([], .errorText "Error: session_id is required") ∧
    capture_metadata_handler [] "i" 0 { session_id := some "x" } =
      ([], .errorText noFieldsMsg) :=
  ⟨(capture_rejects_bad_requests [] "i" 0 { session_id := some "" }).1 (Or.inr rfl),
   (capture_rejects_bad_requests [] "i" 0 { session_id := some "x" }).2 "x" rfl
     (by decide) (by intro f _; unfold CaptureArgs.get; split_ifs <;> rfl)⟩

theorem rowToDict_getCol (r : DraftRow) (c : String)
    (hc : c ∈ METADATA_FIELDS ++ ["validation_results_json"]) :
    (rowToDict r).getCol c = decodeField (r.getCol c) := by
  fin_cases hc <;> rfl

/-- C9: reading a stored row (`_row_to_dict`, used by both `getCurrent` and
`list`) decodes each stored section text to its structure, and a section
whose stored text fails to decode is left as the raw text; the read is a
total function on rows, so one malformed section never fails the whole
record. -/
theorem row_read_defensive_decode (r : DraftRow) (c t : String)
    (hc : c ∈ METADATA_FIELDS ++ ["validation_results_json"])
    (hstored : r.getCol c = some t) :
    (∀ j, Json.decode t = some j → (rowToDict r).getCol c = some j) ∧
    (Json.decode t = none → (rowToDict r).getCol c = some (.str t)) := by
  rw [rowToDict_getCol r c hc, hstored]
  constructor
  · intro j hj
    have hne : t ≠ "" := by
      rintro rfl
      rw [show Json.decode "" = none from rfl] at hj
      exact Option.noConfusion hj
    simp [decodeField, hne, hj]
  · intro hj
    by_cases he : t = ""
    · subst he
      simp [decodeField]
    · simp [decodeField, he, hj]

/-- A concrete row with one malformed and one well-formed stored section. -/
def mixedRow : DraftRow :=
  { id := "r", session_id := "s", status := "draft", created_at := 0, updated_at := 0,
    subject_json := some "oops", session_json := some "7" }

/-- C9 witness: one malformed column read back as raw text and one valid
column read back decoded, on a concrete row. -/
theorem row_read_defensive_decode_witness :
    (rowToDict mixedRow).getCol "subject_json" = some (.str "oops") ∧
    (rowToDict mixedRow).getCol "session_json" = some (Json.num 7) :=
  ⟨(row_read_defensive_decode mixedRow "subject_json" "oops" (by decide) rfl).2 rfl,
   (row_read_defensive_decode mixedRow "session_json" "7" (by decide) rfl).1 (Json.num 7) rfl⟩

theorem lookup_filter_mem (k : String) (L : List String) (hk : k ∈ L)
    (md : List (String × Json)) :
    List.lookup k (md.filter fun p => L.contains p.1) = List.lookup k md := by
  induction md with
  | nil => rfl
  | cons p ps ih =>
    obtain ⟨pk, pv⟩ := p
    by_cases hp : L.contains pk
    · simp only [List.filter_cons, hp, if_true, List.lookup]
      rw [ih]
    · have hne : (k == pk) = false := by
        simp only [List.contains, List.elem_eq_mem, decide_eq_true_eq] at hp
        simp only [beq_eq_false_iff_ne, ne_eq]
        rintro rfl
        exact hp hk
      have hp2 : L.contains pk = false := by
        simp only [Bool.not_eq_true] at hp
        exact hp
      simp only [List.filter_cons, hp2, Bool.false_eq_true, if_false, List.lookup, hne]
      rw [ih]

/-- C10: `save_draft_metadata` silently ignores input keys that name none of
the nine sections — the inserted row (and hence the whole result) is
unchanged when such keys are filtered away, and the function's result type
carries no error outcome, unlike `updateField` — and the created row always
has status `draft` with `created_at` equal to `updated_at`. -/
theorem save_ignores_unknown_keys (db : List DraftRow) (newId : String) (now : Nat)
    (sid : String) (md : List (String × Json)) :
    save_draft_metadata db newId now sid md =
      save_draft_metadata db newId now sid (md.filter fun p => captureFields.contains p.1) ∧
    (save_draft_metadata db newId now sid md).1 = db ++ [mkDraftRow newId now sid md] ∧
    (mkDraftRow newId now sid md).status = "draft" ∧
    (mkDraftRow newId now sid md).created_at = (mkDraftRow newId now sid md).updated_at := by
  have hrow : mkDraftRow newId now sid md =
      mkDraftRow newId now sid (md.filter fun p => captureFields.contains p.1) := by
    unfold mkDraftRow
    rw [lookup_filter_mem "subject" _ (by decide) md,
      lookup_filter_mem "procedures" _ (by decide) md,
      lookup_filter_mem "data_description" _ (by decide) md,
      lookup_filter_mem "instrument" _ (by decide) md,
      lookup_filter_mem "acquisition" _ (by decide) md,
      lookup_filter_mem "session" _ (by decide) md,
      lookup_filter_mem "processing" _ (by decide) md,
      lookup_filter_mem "quality_control" _ (by decide) md,
      lookup_filter_mem "rig" _ (by decide) md]
  exact ⟨by unfold save_draft_metadata; rw [← hrow], rfl, rfl, rfl⟩

theorem encode_ne_empty (v : Json) : Json.encode v ≠ "" := by
  obtain ⟨c, t, hct, -⟩ := encChars_head v
  intro h
  have h2 : (Json.encode v).data = "".data := by rw [h]
  rw [show (Json.encode v).data = v.encChars from rfl, hct] at h2
  exact List.noConfusion h2

theorem decodeField_serialize_roundtrip (v : Json)
    (h : ∀ s, v = .str s → Json.decode s = none) :
    decodeField (some (serializeValue v)) = some v := by
  have hser : serializeValue v = Json.encode v := by
    cases v with
    | str s => simp [serializeValue, h s rfl]
    | null => rfl
    | bool b => rfl
    | num n => rfl
    | arr xs => rfl
    | obj ms => rfl
  rw [hser]
  show (if Json.encode v = "" then some (Json.str (Json.encode v))
    else match Json.decode (Json.encode v) with
      | some j => some j
      | none => some (Json.str (Json.encode v))) = some v
  rw [if_neg (encode_ne_empty v), Json.decode_encode]

/-- C2 counterexample: the guard is not idempotent on strings that already
parse as JSON.  Supplying the Python string `"1"` stores it verbatim and
reads back the number `1`, not the original string; and supplying the
pre-encoded text of that string (`"\"1\""`) reads back the string `"1"`,
while supplying the equivalent structure (the string `"1"`) directly reads
back the number `1` — different decoded results. -/
theorem serialization_guard_counterexample :
    serializeValue (Json.str "1") = "1" ∧
    decodeField (some (serializeValue (Json.str "1"))) = some (Json.num 1) ∧
    Json.num 1 ≠ Json.str "1" ∧
    decodeField (some (serializeValue (Json.str "\"1\""))) = some (Json.str "1") ∧
    decodeField (some (serializeValue (Json.str "\"1\""))) ≠
      decodeField (some (serializeValue (Json.str "1"))) := by
  refine ⟨rfl, rfl, by simp, rfl, ?_⟩
  rw [show decodeField (some (serializeValue (Json.str "\"1\""))) = some (Json.str "1")
      from rfl,
    show decodeField (some (serializeValue (Json.str "1"))) = some (Json.num 1) from rfl]
  simp

/-- C2 amended: the serialization guard stores a decodable string verbatim,
freshly encodes undecodable strings and every non-string value, and
encode-then-decode returns the original value for every value that is not
itself a JSON-decodable string; for a pre-encoded string the read-back
equals the decoded structure, which agrees with supplying that structure
directly whenever the structure is not in turn a JSON-decodable string (the
guard decodes such strings one extra level). -/
theorem serialization_guard_spec (v : Json) :
    ((∀ s, v = .str s → Json.decode s = none) →
      decodeField (some (serializeValue v)) = some v) ∧
    (∀ s j, v = .str s → Json.decode s = some j →
      serializeValue v = s ∧
      decodeField (some (serializeValue v)) = some j ∧
      ((∀ s2, j = .str s2 → Json.decode s2 = none) →
        decodeField (some (serializeValue j)) = some j)) ∧
    (∀ s, v = .str s → Json.decode s = none → serializeValue v = Json.encode (.str s)) ∧
    ((∀ s, v ≠ .str s) → serializeValue v = Json.encode v) := by
  refine ⟨decodeField_serialize_roundtrip v, ?_, ?_, ?_⟩
  · rintro s j rfl hj
    have hser : serializeValue (.str s) = s := by simp [serializeValue, hj]
    refine ⟨hser, ?_, fun h2 => decodeField_serialize_roundtrip j h2⟩
    rw [hser]
    have hne : s ≠ "" := by
      rintro rfl
      rw [show Json.decode "" = none from rfl] at hj
      exact Option.noConfusion hj
    simp [decodeField, hne, hj]
  · rintro s rfl hs
    simp [serializeValue, hs]
  · intro h
    cases v with
    | str s => exact absurd rfl (h s)
    | null => rfl
    | bool b => rfl
    | num n => rfl
    | arr xs => rfl
    | obj ms => rfl

/-- C2 amended, witness: a structure round-trips through the guard, and a
pre-encoded array text decodes to the same structure as supplying the array
directly. -/
theorem serialization_guard_spec_witness :
    decodeField (some (serializeValue (Json.arr [Json.num 1, Json.bool true]))) =
      some (Json.arr [Json.num 1, Json.bool true]) ∧
    serializeValue (Json.str "[1,true]") = "[1,true]" ∧
    decodeField (some (serializeValue (Json.str "[1,true]"))) =
      some (Json.arr [Json.num 1, Json.bool true]) ∧
    decodeField (some (serializeValue (Json.arr [Json.num 1, Json.bool true]))) =
      some (Json.arr [Json.num 1, Json.bool true]) :=
  ⟨(serialization_guard_spec (Json.arr [Json.num 1, Json.bool true])).1
      (fun s h => Json.noConfusion h),
   ((serialization_guard_spec (Json.str "[1,true]")).2.1 "[1,true]"
      (Json.arr [Json.num 1, Json.bool true]) rfl rfl).1,
   ((serialization_guard_spec (Json.str "[1,true]")).2.1 "[1,true]"
      (Json.arr [Json.num 1, Json.bool true]) rfl rfl).2.1,
   ((serialization_guard_spec (Json.str "[1,true]")).2.1 "[1,true]"
      (Json.arr [Json.num 1, Json.bool true]) rfl rfl).2.2
      (fun s2 h => Json.noConfusion h)⟩

/-- C6: the overall status is `errors` exactly when some produced issue has
error severity; warnings never flip the status, and a snapshot with all
three required paths present whose issues are all warnings is `valid` with
completeness score 1.0. -/
theorem status_errors_iff (snap : List (String × Json)) :
    ((validate_metadata snap).status = "errors" ↔
      ∃ i ∈ (validate_metadata snap).issues, i.severity = "error") ∧
    ((getPath snap "subject" "subject_id").isSome →
      (getPath snap "data_description" "modality").isSome →
      (getPath snap "data_description" "project_name").isSome →
      (∀ i ∈ (validate_metadata snap).issues, i.severity = "warning") →
      (validate_metadata snap).status = "valid" ∧
        (validate_metadata snap).completeness_score = 1) := by
  constructor
  · unfold validate_metadata
    by_cases h : (sexIssues snap ++ modalityIssues snap ++ speciesIssues snap ++
        subjectIdIssues snap ++ thicknessIssues snap ++ sessionIssues snap).any
      (fun i => i.severity = "error")
    · simp only [h, if_true]
      constructor
      · intro _
        obtain ⟨i, hi, hs⟩ := List.any_eq_true.mp h
        exact ⟨i, hi, by simpa using hs⟩
      · intro _
        trivial
    · simp only [h, if_false]
      rw [Bool.not_eq_true] at h
      constructor
      · intro hv
        exact absurd hv (by decide)
      · rintro ⟨i, hi, hs⟩
        have := List.any_eq_false.mp h i hi
        simp [hs] at this
  · intro h1 h2 h3 hw
    have herr : ((validate_metadata snap).issues.any
        (fun i => i.severity = "error")) = false := by
      rw [List.any_eq_false]
      intro i hi
      rw [hw i hi]
      decide
    constructor
    · show (if (sexIssues snap ++ modalityIssues snap ++ speciesIssues snap ++
          subjectIdIssues snap ++ thicknessIssues snap ++ sessionIssues snap).any
            (fun i => i.severity = "error") = true then "errors" else "valid") = "valid"
      rw [show ((sexIssues snap ++ modalityIssues snap ++ speciesIssues snap ++
          subjectIdIssues snap ++ thicknessIssues snap ++ sessionIssues snap).any
            (fun i => i.severity = "error")) =
          ((validate_metadata snap).issues.any (fun i => i.severity = "error")) from rfl,
        herr]
      rfl
    · show ((presentCount snap : Nat) : ℚ) / 3 = 1
      have : presentCount snap = 3 := by
        unfold presentCount REQUIRED_PATHS
        simp [List.filter, h1, h2, h3]
      rw [this]
      norm_num

/-- A snapshot with all required fields present, a non-physiology modality
and no issues (from `test_valid_status`). -/
def validSnap : List (String × Json) :=
  [("subject", .obj [("subject_id", .str "553429")]),
   ("data_description", .obj [("modality", .arr [.obj [("abbreviation", .str "SPIM")]]),
     ("project_name", .str "BrainMap")])]

/-- C6 witness: on the concrete all-required, warnings-free snapshot the
result is `valid` with completeness 1.0. -/
theorem status_errors_iff_witness :
    (validate_metadata validSnap).status = "valid" ∧
    (validate_metadata validSnap).completeness_score = 1 :=
  (status_errors_iff validSnap).2 (by decide) (by decide) (by decide) (by decide)

theorem sessionFilter_sex (snap : List (String × Json)) :
    (sexIssues snap).filter (fun i => i.field = "session" && i.severity = "warning") = [] := by
  unfold sexIssues
  split <;> first | rfl | (split_ifs <;> rfl)

theorem sessionFilter_modEntry (e : Json) :
    (modalityEntryIssue e).filter
      (fun i => i.field = "session" && i.severity = "warning") = [] := by
  unfold modalityEntryIssue
  split <;> first | rfl | (split_ifs <;> rfl)

theorem sessionFilter_modList (es : List Json) :
    ((es.flatMap modalityEntryIssue).filter
      (fun i => i.field = "session" && i.severity = "warning")) = [] := by
  induction es with
  | nil => rfl
  | cons e es ih =>
    rw [List.flatMap_cons, List.filter_append, sessionFilter_modEntry, ih]
    rfl

theorem sessionFilter_modality (snap : List (String × Json)) :
    (modalityIssues snap).filter
      (fun i => i.field = "session" && i.severity = "warning") = [] := by
  unfold modalityIssues
  split
  · exact sessionFilter_modList _
  · rfl

theorem sessionFilter_species (snap : List (String × Json)) :
    (speciesIssues snap).filter
      (fun i => i.field = "session" && i.severity = "warning") = [] := by
  unfold speciesIssues
  split
  · split <;> first | rfl | (split_ifs <;> rfl)
  · rfl

theorem sessionFilter_subjectId (snap : List (String × Json)) :
    (subjectIdIssues snap).filter
      (fun i => i.field = "session" && i.severity = "warning") = [] := by
  unfold subjectIdIssues
  split <;> first | rfl | (split_ifs <;> rfl)

theorem sessionFilter_thickness (snap : List (String × Json)) :
    (thicknessIssues snap).filter
      (fun i => i.field = "session" && i.severity = "warning") = [] := by
  unfold thicknessIssues
  split <;> first | rfl | (split_ifs <;> rfl)

/-- C7: with a physiology-style modality abbreviation present and the
`session` section absent, validation emits exactly one warning keyed on
field `session`; with no physiology-style abbreviation at all, it emits
none. -/
theorem physiology_session_warning (snap : List (String × Json)) :
    (hasPhysiologyModality snap = true → List.lookup "session" snap = none →
      ((validate_metadata snap).issues.filter
        (fun i => i.field = "session" && i.severity = "warning")).length = 1) ∧
    (hasPhysiologyModality snap = false →
      ((validate_metadata snap).issues.filter
        (fun i => i.field = "session" && i.severity = "warning")).length = 0) := by
  have hsplit : ((validate_metadata snap).issues.filter
      (fun i => i.field = "session" && i.severity = "warning")) =
      (sessionIssues snap).filter
        (fun i => i.field = "session" && i.severity = "warning") := by
    show ((sexIssues snap ++ modalityIssues snap ++ speciesIssues snap ++
      subjectIdIssues snap ++ thicknessIssues snap ++ sessionIssues snap).filter
        (fun i => i.field = "session" && i.severity = "warning")) = _
    rw [List.filter_append, List.filter_append, List.filter_append, List.filter_append,
      List.filter_append, sessionFilter_sex, sessionFilter_modality, sessionFilter_species,
      sessionFilter_subjectId, sessionFilter_thickness]
    rfl
  rw [hsplit]
  constructor
  · intro hphy hsess
    unfold sessionIssues
    rw [if_pos (by rw [hphy, hsess]; rfl)]
    rfl
  · intro hphy
    unfold sessionIssues
    rw [if_neg (by rw [hphy]; simp)]
    rfl

/-- A snapshot whose only modality is `ecephys`, with no `session` section
(from `test_physiology_modality_warns_without_session`). -/
def ecephysSnap : List (String × Json) :=
  [("data_description", .obj [("modality", .arr [.obj [("abbreviation", .str "ecephys")]])])]

/-- A snapshot whose only modality is `SPIM`
(from `test_non_physiology_no_session_warning`). -/
def spimSnap : List (String × Json) :=
  [("data_description", .obj [("modality", .arr [.obj [("abbreviation", .str "SPIM")]])])]

/-- C7 witness: the `ecephys`-without-session snapshot gets exactly one
session warning; the `SPIM` snapshot gets none. -/
theorem physiology_session_warning_witness :
    ((validate_metadata ecephysSnap).issues.filter
      (fun i => i.field = "session" && i.severity = "warning")).length = 1 ∧
    ((validate_metadata spimSnap).issues.filter
      (fun i => i.field = "session" && i.severity = "warning")).length = 0 :=
  ⟨(physiology_session_warning ecephysSnap).1 (by decide) (by rfl),
   (physiology_session_warning spimSnap).2 (by decide)⟩

theorem insertDesc_perm (r : DraftRow) (l : List DraftRow) :
    (insertDesc r l).Perm (r :: l) := by
  induction l with
  | nil => exact List.Perm.refl _
  | cons x xs ih =>
    unfold insertDesc
    split_ifs with h
    · exact List.Perm.refl _
    · exact (ih.cons x).trans (List.Perm.swap r x xs)

theorem sortDesc_perm (l : List DraftRow) : (sortDesc l).Perm l := by
  induction l with
  | nil => exact List.Perm.refl _
  | cons a l ih =>
    exact (insertDesc_perm a (sortDesc l)).trans (ih.cons a)

theorem insertDesc_sorted (r : DraftRow) (l : List DraftRow)
    (h : l.Pairwise (fun a b => b.created_at ≤ a.created_at)) :
    (insertDesc r l).Pairwise (fun a b => b.created_at ≤ a.created_at) := by
  induction l with
  | nil => simp [insertDesc]
  | cons x xs ih =>
    rw [List.pairwise_cons] at h
    unfold insertDesc
    split_ifs with hc
    · refine List.Pairwise.cons ?_ (List.Pairwise.cons h.1 h.2)
      intro b hb
      rcases List.mem_cons.mp hb with rfl | hb
      · exact hc
      · exact le_trans (h.1 b hb) hc
    · refine List.Pairwise.cons ?_ (ih h.2)
      intro b hb
      have hb2 := (insertDesc_perm r xs).mem_iff.mp hb
      rcases List.mem_cons.mp hb2 with rfl | hb2
      · omega
      · exact h.1 b hb2

theorem sortDesc_sorted (l : List DraftRow) :
    (sortDesc l).Pairwise (fun a b => b.created_at ≤ a.created_at) := by
  induction l with
  | nil => simp [sortDesc]
  | cons a l ih => exact insertDesc_sorted a (sortDesc l) ih

theorem insertDesc_map (f : DraftRow → DraftRow)
    (hf : ∀ x, (f x).created_at = x.created_at) (r : DraftRow) (l : List DraftRow) :
    insertDesc (f r) (l.map f) = (insertDesc r l).map f := by
  induction l with
  | nil => rfl
  | cons x xs ih =>
    simp only [List.map_cons]
    unfold insertDesc
    rw [hf x, hf r]
    split_ifs with hc
    · simp
    · simp only [List.map_cons]
      rw [ih]

theorem sortDesc_map (f : DraftRow → DraftRow)
    (hf : ∀ x, (f x).created_at = x.created_at) (l : List DraftRow) :
    sortDesc (l.map f) = (sortDesc l).map f := by
  induction l with
  | nil => rfl
  | cons a l ih =>
    simp only [List.map_cons]
    unfold sortDesc
    rw [ih, insertDesc_map f hf]

/-- C8: `list` (no status filter) returns every stored row — in particular
every session's current draft — as a permutation of the table, ordered by
`created_at` descending, and confirming a draft (which only rewrites
`status` and `updated_at`) never changes any record's rank in that
listing. -/
theorem list_order_stable (db : List DraftRow) (now : Nat) (sid : String) :
    (list_all_drafts db none).Perm (db.map rowToDict) ∧
    (list_all_drafts db none).Pairwise (fun a b => b.created_at ≤ a.created_at) ∧
    (list_all_drafts (confirm_metadata db now sid).1 none).map (fun d => d.id) =
      (list_all_drafts db none).map (fun d => d.id) := by
  refine ⟨?_, ?_, ?_⟩
  · exact (sortDesc_perm db).map rowToDict
  · show ((sortDesc db).map rowToDict).Pairwise (fun a b => b.created_at ≤ a.created_at)
    exact List.Pairwise.map rowToDict (fun a b hab => hab) (sortDesc_sorted db)
  · unfold confirm_metadata
    cases h : latestFor db sid with
    | none => rfl
    | some r =>
      show ((sortDesc (db.map fun x =>
          if x.id = r.id then { x with status := "confirmed", updated_at := now }
          else x)).map rowToDict).map (fun d => d.id) =
        ((sortDesc db).map rowToDict).map (fun d => d.id)
      rw [sortDesc_map _ (by
        intro x
        by_cases hx : x.id = r.id <;> simp [hx]) db]
      simp only [List.map_map]
      refine List.map_congr_left ?_
      intro a _
      show (rowToDict (if a.id = r.id then
        { a with status := "confirmed", updated_at := now } else a)).id = (rowToDict a).id
      by_cases hx : a.id = r.id <;> simp [hx, rowToDict]

/-- The merge applied by one loop iteration: shallow union when both the
existing and the incoming value are mappings, otherwise wholesale
replacement by the incoming value. -/
def mergeVal (ex : Option Json) (v : Json) : Json :=
  match ex, v with
  | some (.obj e), .obj i => .obj (dictUnion e i)
  | _, _ => v

/-- The section value produced by iterating the merge policy over the
successive capture payloads (the specification's view of the stored
section). -/
def sectionState (calls : List (List (String × Json))) (f : String) : Option Json :=
  calls.foldl
    (fun acc c =>
      match List.lookup f c with
      | some v => some (mergeVal acc v)
      | none => acc)
    none

/-- Was the section ever supplied by a call? -/
def suppliedIn (calls : List (List (String × Json))) (f : String) : Bool :=
  calls.any fun c => (List.lookup f c).isSome

/-- The last value supplied for a top-level sub-key of a section across the
calls (later calls override, sub-keys only set earlier persist). -/
def lastSub (calls : List (List (String × Json))) (f k : String) : Option Json :=
  calls.foldl
    (fun acc c =>
      match List.lookup f c with
      | some (Json.obj m) =>
        match List.lookup k m with
        | some w => some w
        | none => acc
      | some _ => acc
      | none => acc)
    none

/-- Sub-key lookup under an optional section value. -/
def getKeyOpt (o : Option Json) (k : String) : Option Json :=
  match o with
  | some j => getKey j k
  | none => none

theorem lookup_append_pairs (k : String) (l1 l2 : List (String × Json)) :
    List.lookup k (l1 ++ l2) =
      match List.lookup k l1 with
      | some w => some w
      | none => List.lookup k l2 := by
  induction l1 with
  | nil => rfl
  | cons x xs ih =>
    obtain ⟨xk, xv⟩ := x
    by_cases hx : k = xk
    · subst hx
      simp [List.lookup]
    · have hb : (k == xk) = false := by
        simp [hx]
      simp [List.lookup, hb, ih]

theorem lookup_filter_agree (k : String) (v : List (String × Json))
    (p q : String × Json → Bool) (h : ∀ x ∈ v, x.1 = k → p x = q x) :
    List.lookup k (v.filter p) = List.lookup k (v.filter q) := by
  induction v with
  | nil => rfl
  | cons x xs ih =>
    have ih2 := ih fun y hy => h y (List.mem_cons_of_mem x hy)
    by_cases hx : x.1 = k
    · have hpq := h x (List.mem_cons_self x xs) hx
      obtain ⟨xk, xv⟩ := x
      subst hx
      cases hp : p (xk, xv) <;> cases hq : q (xk, xv) <;>
        simp_all [List.filter_cons, List.lookup]
    · have hb : (k == x.1) = false := by
        simp only [beq_eq_false_iff_ne, ne_eq]
        intro hkx
        exact hx hkx.symm
      obtain ⟨xk, xv⟩ := x
      cases hp : p (xk, xv) <;> cases hq : q (xk, xv) <;>
        simp [List.filter_cons, hp, hq, List.lookup, hb, ih2]

/-- Lookup in the shallow union: the incoming mapping wins on its own keys,
the existing mapping answers everything else. -/
theorem lookup_dictUnion (e v : List (String × Json)) (k : String) :
    List.lookup k (dictUnion e v) =
      match List.lookup k v with
      | some w => some w
      | none => List.lookup k e := by
  induction e with
  | nil =>
    have hfil : (v.filter fun p => (List.lookup p.1 ([] : List (String × Json))).isNone) = v :=
      List.filter_eq_self.mpr fun a _ => rfl
    show List.lookup k ([] ++ v.filter _) = _
    rw [List.nil_append, hfil]
    cases h : List.lookup k v <;> rfl
  | cons x e2 ih =>
    obtain ⟨ek, ev⟩ := x
    by_cases hk : k = ek
    · subst hk
      cases hv : List.lookup k v
      · show List.lookup k
          ((match List.lookup k v with
            | some w => (k, w)
            | none => (k, ev)) :: _ ++ _) = _
        rw [hv]
        simp [List.lookup]
      · show List.lookup k
          ((match List.lookup k v with
            | some w => (k, w)
            | none => (k, ev)) :: _ ++ _) = _
        rw [hv]
        simp [List.lookup]
    · have hb : (k == ek) = false := by
        simp [hk]
      have hskip : List.lookup k (dictUnion ((ek, ev) :: e2) v) =
          List.lookup k
            ((e2.map fun p =>
              match List.lookup p.1 v with
              | some w => (p.1, w)
              | none => p) ++
            (v.filter fun p => (List.lookup p.1 ((ek, ev) :: e2)).isNone)) := by
        show List.lookup k
          ((match List.lookup ek v with
            | some w => (ek, w)
            | none => (ek, ev)) :: _) = _
        cases hv : List.lookup ek v <;> simp [List.lookup, hb]
      have hagree : List.lookup k
          (v.filter fun p => (List.lookup p.1 ((ek, ev) :: e2)).isNone) =
          List.lookup k (v.filter fun p => (List.lookup p.1 e2).isNone) := by
        apply lookup_filter_agree
        intro x _ hx1
        rw [hx1]
        simp [List.lookup, hb]
      have hr : List.lookup k ((ek, ev) :: e2) = List.lookup k e2 := by
        simp [List.lookup, hb]
      rw [hskip, lookup_append_pairs, hagree, ← lookup_append_pairs, hr]
      exact ih

theorem mem_of_lookup_pairs (k : String) (l : List (String × Json)) (v : Json)
    (h : List.lookup k l = some v) : (k, v) ∈ l := by
  induction l with
  | nil => simp [List.lookup] at h
  | cons x xs ih =>
    obtain ⟨xk, xv⟩ := x
    simp only [List.lookup] at h
    cases hk : k == xk with
    | true =>
      rw [hk] at h
      cases h
      have hkeq : k = xk := eq_of_beq hk
      subst hkeq
      exact List.mem_cons_self _ _
    | false =>
      rw [hk] at h
      exact List.mem_cons_of_mem _ (ih h)

theorem sectionState_append (calls : List (List (String × Json)))
    (c : List (String × Json)) (f : String) :
    sectionState (calls ++ [c]) f =
      match List.lookup f c with
      | some v => some (mergeVal (sectionState calls f) v)
      | none => sectionState calls f := by
  unfold sectionState
  rw [List.foldl_append]
  rfl

theorem lastSub_append (calls : List (List (String × Json)))
    (c : List (String × Json)) (f k : String) :
    lastSub (calls ++ [c]) f k =
      match List.lookup f c with
      | some (Json.obj m) =>
        match List.lookup k m with
        | some w => some w
        | none => lastSub calls f k
      | some _ => lastSub calls f k
      | none => lastSub calls f k := by
  unfold lastSub
  rw [List.foldl_append]
  rfl

theorem suppliedIn_append (calls : List (List (String × Json)))
    (c : List (String × Json)) (f : String) :
    suppliedIn (calls ++ [c]) f = (suppliedIn calls f || (List.lookup f c).isSome) := by
  unfold suppliedIn
  rw [List.any_append]
  simp

theorem sectionState_isSome (calls : List (List (String × Json))) (f : String) :
    (sectionState calls f).isSome = suppliedIn calls f := by
  induction calls using List.reverseRecOn with
  | nil => rfl
  | append_singleton calls c ih =>
    rw [sectionState_append, suppliedIn_append, ← ih]
    cases h : List.lookup f c <;> simp [h]

theorem sectionState_obj (calls : List (List (String × Json))) (f : String)
    (h : ∀ c ∈ calls, ∀ p ∈ c, ∃ ms, p.2 = Json.obj ms) :
    ∀ w, sectionState calls f = some w → ∃ ms, w = Json.obj ms := by
  induction calls using List.reverseRecOn with
  | nil => intro w hw; exact absurd hw (by simp [sectionState])
  | append_singleton calls c ih =>
    intro w hw
    have ih2 := ih fun c2 hc2 => h c2 (List.mem_append_left _ hc2)
    rw [sectionState_append] at hw
    cases hlk : List.lookup f c with
    | none =>
      rw [hlk] at hw
      exact ih2 w hw
    | some v =>
      rw [hlk] at hw
      obtain ⟨ms, rfl⟩ := h c (List.mem_append_right _ (List.mem_singleton_self c)) (f, v)
        (mem_of_lookup_pairs f c v hlk)
      cases hw
      cases hst : sectionState calls f with
      | none => exact ⟨ms, by simp [mergeVal, hst]⟩
      | some w0 =>
        obtain ⟨es, rfl⟩ := ih2 w0 hst
        exact ⟨dictUnion es ms, by simp [mergeVal, hst]⟩

theorem sectionState_sub (calls : List (List (String × Json))) (f k : String)
    (h : ∀ c ∈ calls, ∀ p ∈ c, ∃ ms, p.2 = Json.obj ms) :
    getKeyOpt (sectionState calls f) k = lastSub calls f k := by
  induction calls using List.reverseRecOn with
  | nil => rfl
  | append_singleton calls c ih =>
    have hpre : ∀ c2 ∈ calls, ∀ p ∈ c2, ∃ ms, p.2 = Json.obj ms :=
      fun c2 hc2 => h c2 (List.mem_append_left _ hc2)
    have ih2 := ih hpre
    rw [sectionState_append, lastSub_append]
    cases hlk : List.lookup f c with
    | none => exact ih2
    | some v =>
      obtain ⟨ms, rfl⟩ := h c (List.mem_append_right _ (List.mem_singleton_self c)) (f, v)
        (mem_of_lookup_pairs f c v hlk)
      cases hst : sectionState calls f with
      | none =>
        rw [hst] at ih2
        show List.lookup k ms =
          match List.lookup k ms with
          | some w => some w
          | none => lastSub calls f k
        cases hkm : List.lookup k ms
        · exact ih2
        · rfl
      | some w0 =>
        obtain ⟨es, rfl⟩ := sectionState_obj calls f hpre w0 hst
        rw [hst] at ih2
        show List.lookup k (dictUnion es ms) =
          match List.lookup k ms with
          | some w => some w
          | none => lastSub calls f k
        rw [lookup_dictUnion]
        cases hkm : List.lookup k ms
        · exact ih2
        · rfl

set_option maxHeartbeats 1000000 in
theorem getCol_setCol_self (r : DraftRow) (s : String) (c : String)
    (hc : c ∈ METADATA_FIELDS ++ ["validation_results_json"]) :
    (r.setCol c s).getCol c = some s := by
  fin_cases hc <;> simp [DraftRow.setCol, DraftRow.getCol]

set_option maxHeartbeats 4000000 in
theorem getCol_setCol_ne (r : DraftRow) (s : String) (c c' : String)
    (hc : c ∈ METADATA_FIELDS ++ ["validation_results_json"])
    (hc' : c' ∈ METADATA_FIELDS ++ ["validation_results_json"])
    (hne : c ≠ c') :
    (r.setCol c s).getCol c' = r.getCol c' := by
  fin_cases hc <;> fin_cases hc' <;>
    first | (exact absurd rfl hne) | simp [DraftRow.setCol, DraftRow.getCol]

theorem getCol_set_updatedAt (r : DraftRow) (n : Nat) (c : String)
    (hc : c ∈ METADATA_FIELDS ++ ["validation_results_json"]) :
    ({ r with updated_at := n } : DraftRow).getCol c = r.getCol c := by
  fin_cases hc <;> rfl

theorem filter_session_nil (db : List DraftRow) (sid : String)
    (h : ∀ r ∈ db, r.session_id ≠ sid) :
    db.filter (fun r => r.session_id = sid) = [] := by
  rw [List.filter_eq_nil_iff]
  intro r hr
  simp [h r hr]

theorem latestFor_append_single (db : List DraftRow) (row : DraftRow) (sid : String)
    (hdb : ∀ r ∈ db, r.session_id ≠ sid) (hrow : row.session_id = sid) :
    latestFor (db ++ [row]) sid = some row := by
  unfold latestFor
  rw [List.filter_append, filter_session_nil db sid hdb]
  simp [hrow, sortDesc, insertDesc]

theorem get_draft_metadata_none (db : List DraftRow) (sid : String)
    (hdb : ∀ r ∈ db, r.session_id ≠ sid) :
    get_draft_metadata db sid = none := by
  unfold get_draft_metadata latestFor
  rw [filter_session_nil db sid hdb]
  rfl

theorem get_draft_metadata_single (db : List DraftRow) (row : DraftRow) (sid : String)
    (hdb : ∀ r ∈ db, r.session_id ≠ sid) (hrow : row.session_id = sid) :
    get_draft_metadata (db ++ [row]) sid = some (rowToDict row) := by
  unfold get_draft_metadata
  rw [latestFor_append_single db row sid hdb hrow]
  rfl

theorem map_update_fresh (db : List DraftRow) (row : DraftRow)
    (upd : DraftRow → DraftRow)
    (hid : ∀ r ∈ db, r.id ≠ row.id) :
    (db ++ [row]).map (fun x => if x.id = row.id then upd x else x) =
      db ++ [upd row] := by
  rw [List.map_append]
  congr 1
  · conv_rhs => rw [show db = db.map id from (List.map_id db).symm]
    apply List.map_congr_left
    intro r hr
    simp [hid r hr]
  · simp

/-- `update_draft_metadata` on a store whose only row for the session sits
freshly appended: the guard passes, the row is found and exactly its
target column and `updated_at` change. -/
theorem update_session_row (db : List DraftRow) (row : DraftRow) (now : Nat)
    (sid field : String) (value : Json)
    (hdb : ∀ r ∈ db, r.session_id ≠ sid) (hrow : row.session_id = sid)
    (hid : ∀ r ∈ db, r.id ≠ row.id)
    (hcol : normalizeCol field ∈ METADATA_FIELDS ∨
      normalizeCol field = "validation_results_json") :
    (update_draft_metadata (db ++ [row]) now sid field value).1 =
      db ++ [{ row.setCol (normalizeCol field) (serializeValue value) with
        updated_at := now }] := by
  unfold update_draft_metadata
  rw [if_neg (by tauto)]
  rw [latestFor_append_single db row sid hdb hrow]
  show ((db ++ [row]).map fun x =>
    if x.id = row.id then
      { x.setCol (normalizeCol field) (serializeValue value) with updated_at := now }
    else x) = _
  rw [map_update_fresh db row _ hid]

theorem normalizeCol_section (f : String) (hf : f ∈ captureFields) :
    normalizeCol f = f ++ "_json" ∧ f ++ "_json" ∈ METADATA_FIELDS := by
  fin_cases hf <;> exact ⟨rfl, by decide⟩

theorem mkDraftRow_getCol (newId : String) (now : Nat) (sid : String)
    (md : List (String × Json)) (f : String) (hf : f ∈ captureFields) :
    (mkDraftRow newId now sid md).getCol (f ++ "_json") =
      (List.lookup f md).map serializeValue := by
  fin_cases hf <;> rfl

theorem setCol_preserves (r : DraftRow) (c s : String)
    (hc : c ∈ METADATA_FIELDS ++ ["validation_results_json"]) :
    (r.setCol c s).session_id = r.session_id ∧ (r.setCol c s).id = r.id ∧
    (r.setCol c s).created_at = r.created_at := by
  fin_cases hc <;> exact ⟨rfl, rfl, rfl⟩

theorem colName_injective (f g : String) (hf : f ∈ captureFields)
    (hg : g ∈ captureFields) (hne : f ≠ g) : f ++ "_json" ≠ g ++ "_json" := by
  fin_cases hf <;> fin_cases hg <;> first | (exact absurd rfl hne) | decide

theorem lookup_none_of_not_keys (k : String) (l : List (String × Json))
    (h : k ∉ l.map Prod.fst) : List.lookup k l = none := by
  induction l with
  | nil => rfl
  | cons x xs ih =>
    obtain ⟨xk, xv⟩ := x
    simp only [List.map_cons, List.mem_cons] at h
    push_neg at h
    have hb : (k == xk) = false := by
      simp [h.1]
    simp only [List.lookup, hb]
    exact ih h.2

theorem captureMergeStep_eq (draft : DecodedRow) (now : Nat) (sid : String)
    (dbAcc : List DraftRow) (p : String × Json) :
    captureMergeStep draft now sid dbAcc p =
      (update_draft_metadata dbAcc now sid p.1
        (mergeVal (draft.getCol (p.1 ++ "_json")) p.2)).1 := by
  obtain ⟨f, v⟩ := p
  unfold captureMergeStep mergeVal
  cases hex : draft.getCol (f ++ "_json") with
  | none => cases v <;> rfl
  | some j => cases j <;> cases v <;> rfl

/-- The handler's merge loop: starting from a freshly appended session row,
it yields a row in which every section supplied by the payload holds the
serialized merge of the pre-loop draft value with the supplied value, and
every other section is untouched. -/
theorem capture_loop (db : List DraftRow) (sid : String)
    (hdb : ∀ r ∈ db, r.session_id ≠ sid) (draft : DecodedRow) (now : Nat) :
    ∀ (md : List (String × Json)) (rowAcc : DraftRow),
    rowAcc.session_id = sid →
    (∀ r ∈ db, r.id ≠ rowAcc.id) →
    (∀ p ∈ md, p.1 ∈ captureFields) →
    (md.map Prod.fst).Nodup →
    ∃ rowEnd : DraftRow,
      md.foldl (captureMergeStep draft now sid) (db ++ [rowAcc]) = db ++ [rowEnd] ∧
      rowEnd.session_id = sid ∧
      rowEnd.id = rowAcc.id ∧
      ∀ g ∈ captureFields,
        rowEnd.getCol (g ++ "_json") =
          match List.lookup g md with
          | some v => some (serializeValue (mergeVal (draft.getCol (g ++ "_json")) v))
          | none => rowAcc.getCol (g ++ "_json") := by
  intro md
  induction md with
  | nil =>
    intro rowAcc h1 _ _ _
    exact ⟨rowAcc, rfl, h1, rfl, fun g _ => rfl⟩
  | cons p md ih =>
    intro rowAcc hsid hid hkeys hnodup
    obtain ⟨f, v⟩ := p
    have hf : f ∈ captureFields := hkeys (f, v) (List.mem_cons_self _ _)
    have hnorm := normalizeCol_section f hf
    have hmem10 : f ++ "_json" ∈ METADATA_FIELDS ++ ["validation_results_json"] :=
      List.mem_append_left _ hnorm.2
    have hstep : captureMergeStep draft now sid (db ++ [rowAcc]) (f, v) =
        db ++ [{ rowAcc.setCol (f ++ "_json")
          (serializeValue (mergeVal (draft.getCol (f ++ "_json")) v)) with
            updated_at := now }] := by
      rw [captureMergeStep_eq]
      rw [update_session_row db rowAcc now sid f _ hdb hsid hid
        (Or.inl (hnorm.1 ▸ hnorm.2))]
      rw [hnorm.1]
    set rowAcc2 : DraftRow := { rowAcc.setCol (f ++ "_json")
      (serializeValue (mergeVal (draft.getCol (f ++ "_json")) v)) with
        updated_at := now } with hrowAcc2
    have hpres := setCol_preserves rowAcc (f ++ "_json")
      (serializeValue (mergeVal (draft.getCol (f ++ "_json")) v)) hmem10
    have hsid2 : rowAcc2.session_id = sid := by
      rw [hrowAcc2]
      show (rowAcc.setCol _ _).session_id = sid
      rw [hpres.1, hsid]
    have hid2 : ∀ r ∈ db, r.id ≠ rowAcc2.id := by
      intro r hr
      rw [hrowAcc2]
      show r.id ≠ (rowAcc.setCol _ _).id
      rw [hpres.2.1]
      exact hid r hr
    have hkeys2 : ∀ q ∈ md, q.1 ∈ captureFields :=
      fun q hq => hkeys q (List.mem_cons_of_mem _ hq)
    have hnodup2 : (md.map Prod.fst).Nodup := (List.nodup_cons.mp hnodup).2
    have hfnotin : f ∉ md.map Prod.fst := (List.nodup_cons.mp hnodup).1
    obtain ⟨rowEnd, hfold, hend1, hend2, hcols⟩ := ih rowAcc2 hsid2 hid2 hkeys2 hnodup2
    refine ⟨rowEnd, ?_, hend1, ?_, ?_⟩
    · rw [List.foldl_cons, hstep]
      exact hfold
    · rw [hend2, hrowAcc2]
      show (rowAcc.setCol _ _).id = rowAcc.id
      exact hpres.2.1
    · intro g hg
      by_cases hgf : g = f
      · subst hgf
        have hnotin : List.lookup g md = none := lookup_none_of_not_keys g md hfnotin
        have hl : List.lookup g ((g, v) :: md) = some v := by
          simp [List.lookup]
        rw [hcols g hg, hnotin, hl]
        show rowAcc2.getCol (g ++ "_json") = _
        rw [hrowAcc2]
        rw [getCol_set_updatedAt _ _ _ hmem10, getCol_setCol_self _ _ _ hmem10]
      · have hb : (g == f) = false := by
          simp [hgf]
        have hl : List.lookup g ((f, v) :: md) = List.lookup g md := by
          simp [List.lookup, hb]
        rw [hcols g hg, hl]
        cases hlg : List.lookup g md with
        | some w => rfl
        | none =>
          show rowAcc2.getCol (g ++ "_json") = rowAcc.getCol (g ++ "_json")
          have hgmem10 : g ++ "_json" ∈ METADATA_FIELDS ++ ["validation_results_json"] :=
            List.mem_append_left _ (normalizeCol_section g hg).2
          rw [hrowAcc2]
          rw [getCol_set_updatedAt _ _ _ hgmem10]
          exact getCol_setCol_ne rowAcc _ _ _ hmem10 hgmem10
            (colName_injective f g hf hg (fun hfg => hgf hfg.symm))

theorem collectMetadata_keys (args : CaptureArgs) :
    (collectMetadata args).map Prod.fst =
      captureFields.filter fun f => (args.get f).isSome := by
  unfold collectMetadata
  induction captureFields with
  | nil => rfl
  | cons f fs ih =>
    rw [List.filterMap_cons, List.filter_cons]
    cases h : args.get f with
    | none => simpa [h] using ih
    | some v => simpa [h] using ih

theorem collectMetadata_mem_fields (args : CaptureArgs) :
    ∀ p ∈ collectMetadata args, p.1 ∈ captureFields := by
  intro p hp
  obtain ⟨f, hf, hmap⟩ := List.mem_filterMap.mp hp
  cases h : args.get f with
  | none => rw [h] at hmap; exact absurd hmap (by simp)
  | some v =>
    rw [h] at hmap
    cases hmap
    exact hf

theorem collectMetadata_nodup (args : CaptureArgs) :
    ((collectMetadata args).map Prod.fst).Nodup := by
  rw [collectMetadata_keys]
  exact List.Nodup.filter _ (by decide)

theorem collectMetadata_obj (args : CaptureArgs)
    (hobj : ∀ f v, args.get f = some v → ∃ ms, v = Json.obj ms) :
    ∀ p ∈ collectMetadata args, ∃ ms, p.2 = Json.obj ms := by
  intro p hp
  obtain ⟨f, _, hmap⟩ := List.mem_filterMap.mp hp
  cases h : args.get f with
  | none => rw [h] at hmap; exact absurd hmap (by simp)
  | some v =>
    rw [h] at hmap
    cases hmap
    obtain ⟨ms, rfl⟩ := hobj f v h
    exact ⟨ms, rfl⟩

/-- The decoded value of one stored section of a session's current draft
("the stored section" of the claim). -/
def sectionValue (db : List DraftRow) (sid f : String) : Option Json :=
  match get_draft_metadata db sid with
  | some d => d.getCol (f ++ "_json")
  | none => none

/-- Running invariant of a capture sequence: either nothing has been stored
yet, or the session has exactly one appended row whose section columns hold
the serialized iterated-merge state. -/
def C1Inv (db₀ : List DraftRow) (sid : String) (db : List DraftRow)
    (calls : List (List (String × Json))) : Prop :=
  (db = db₀ ∧ ∀ f, sectionState calls f = none) ∨
  (∃ row : DraftRow, db = db₀ ++ [row] ∧ row.session_id = sid ∧
    (∀ r ∈ db₀, r.id ≠ row.id) ∧
    ∀ f ∈ captureFields,
      row.getCol (f ++ "_json") = (sectionState calls f).map serializeValue)

theorem validation_ne_section (f : String) (hf : f ∈ captureFields) :
    ("validation_results_json" : String) ≠ f ++ "_json" := by
  fin_cases hf <;> decide

theorem decodeField_state (st : Option Json)
    (hobj : ∀ w, st = some w → ∃ ms, w = Json.obj ms) :
    decodeField (st.map serializeValue) = st := by
  cases hst : st with
  | none => rfl
  | some w =>
    obtain ⟨ms, rfl⟩ := hobj w hst
    rw [Option.map_some']
    exact decodeField_serialize_roundtrip (Json.obj ms) (fun s h => Json.noConfusion h)

theorem sectionState_append_nilcall (calls : List (List (String × Json))) (f : String) :
    sectionState (calls ++ [[]]) f = sectionState calls f := by
  rw [sectionState_append]
  rfl

/-- Handler branch: no draft exists yet — the handler saves a fresh row
holding the payload and then writes the validation result into it. -/
theorem handler_creates (db₀ : List DraftRow) (sid newId : String) (now : Nat)
    (args : CaptureArgs)
    (hdb₀ : ∀ r ∈ db₀, r.session_id ≠ sid) (hsid : sid ≠ "")
    (hargs : args.session_id = some sid)
    (hfresh : ∀ r ∈ db₀, r.id ≠ newId)
    (hmd : (collectMetadata args).isEmpty = false) :
    ∃ vtext : String,
      (capture_metadata_handler db₀ newId now args).1 =
        db₀ ++ [{ (mkDraftRow newId now sid (collectMetadata args)).setCol
          "validation_results_json" vtext with updated_at := now }] := by
  unfold capture_metadata_handler
  rw [hargs]
  simp only [hmd, Bool.false_eq_true, if_false, if_neg hsid]
  rw [get_draft_metadata_none db₀ sid hdb₀]
  show ∃ vtext, (match get_draft_metadata
      (save_draft_metadata db₀ newId now sid (collectMetadata args)).1 sid with
    | none => (save_draft_metadata db₀ newId now sid (collectMetadata args)).1
    | some d => (update_draft_metadata
        (save_draft_metadata db₀ newId now sid (collectMetadata args)).1 now sid
        "validation_results" (validate_metadata (bareSections d)).toJson).1) = _
  rw [show (save_draft_metadata db₀ newId now sid (collectMetadata args)).1 =
    db₀ ++ [mkDraftRow newId now sid (collectMetadata args)] from rfl]
  rw [get_draft_metadata_single db₀ _ sid hdb₀ rfl]
  refine ⟨serializeValue (validate_metadata (bareSections
    (rowToDict (mkDraftRow newId now sid (collectMetadata args))))).toJson, ?_⟩
  show (update_draft_metadata (db₀ ++ [mkDraftRow newId now sid (collectMetadata args)]) now sid
      "validation_results" (validate_metadata (bareSections
        (rowToDict (mkDraftRow newId now sid (collectMetadata args))))).toJson).1 = _
  rw [update_session_row db₀ _ now sid "validation_results" _ hdb₀ rfl
    (fun r hr => hfresh r hr) (Or.inr rfl)]
  exact rfl

/-- Handler branch: a draft row for the session already sits appended — the
handler merges every supplied section into it and then writes the
validation result, leaving the other rows untouched. -/
theorem handler_merges (db₀ : List DraftRow) (row : DraftRow) (sid newId : String)
    (now : Nat) (args : CaptureArgs)
    (hdb₀ : ∀ r ∈ db₀, r.session_id ≠ sid) (hsid : sid ≠ "")
    (hargs : args.session_id = some sid)
    (hrow : row.session_id = sid)
    (hid : ∀ r ∈ db₀, r.id ≠ row.id)
    (hmd : (collectMetadata args).isEmpty = false) :
    ∃ rowEnd : DraftRow,
      (capture_metadata_handler (db₀ ++ [row]) newId now args).1 = db₀ ++ [rowEnd] ∧
      rowEnd.session_id = sid ∧ rowEnd.id = row.id ∧
      ∀ g ∈ captureFields,
        rowEnd.getCol (g ++ "_json") =
          match List.lookup g (collectMetadata args) with
          | some v =>
            some (serializeValue (mergeVal ((rowToDict row).getCol (g ++ "_json")) v))
          | none => row.getCol (g ++ "_json") := by
  have hvmem : ("validation_results_json" : String) ∈
      METADATA_FIELDS ++ ["validation_results_json"] := by decide
  obtain ⟨rowMid, hfold, hmid1, hmid2, hmidcols⟩ :=
    capture_loop db₀ sid hdb₀ (rowToDict row) now (collectMetadata args) row hrow hid
      (collectMetadata_mem_fields args) (collectMetadata_nodup args)
  unfold capture_metadata_handler
  rw [hargs]
  simp only [hmd, Bool.false_eq_true, if_false, if_neg hsid]
  rw [get_draft_metadata_single db₀ row sid hdb₀ hrow]
  show ∃ rowEnd, (match get_draft_metadata
      ((collectMetadata args).foldl (captureMergeStep (rowToDict row) now sid)
        (db₀ ++ [row])) sid with
    | none => (collectMetadata args).foldl (captureMergeStep (rowToDict row) now sid)
        (db₀ ++ [row])
    | some d => (update_draft_metadata
        ((collectMetadata args).foldl (captureMergeStep (rowToDict row) now sid)
          (db₀ ++ [row])) now sid
        "validation_results" (validate_metadata (bareSections d)).toJson).1) =
      db₀ ++ [rowEnd] ∧ rowEnd.session_id = sid ∧ rowEnd.id = row.id ∧
      ∀ g ∈ captureFields,
        rowEnd.getCol (g ++ "_json") =
          match List.lookup g (collectMetadata args) with
          | some v =>
            some (serializeValue (mergeVal ((rowToDict row).getCol (g ++ "_json")) v))
          | none => row.getCol (g ++ "_json")
  rw [hfold]
  rw [get_draft_metadata_single db₀ rowMid sid hdb₀ hmid1]
  refine ⟨{ rowMid.setCol "validation_results_json"
      (serializeValue (validate_metadata (bareSections (rowToDict rowMid))).toJson) with
        updated_at := now }, ?_, ?_, ?_, ?_⟩
  · show (update_draft_metadata (db₀ ++ [rowMid]) now sid "validation_results"
        (validate_metadata (bareSections (rowToDict rowMid))).toJson).1 = _
    rw [update_session_row db₀ rowMid now sid "validation_results" _ hdb₀ hmid1
      (fun r hr => by rw [hmid2]; exact hid r hr) (Or.inr rfl)]
    exact rfl
  · show (rowMid.setCol "validation_results_json"
      (serializeValue (validate_metadata
        (bareSections (rowToDict rowMid))).toJson)).session_id = sid
    rw [(setCol_preserves rowMid _ _ hvmem).1]
    exact hmid1
  · show (rowMid.setCol "validation_results_json"
      (serializeValue (validate_metadata
        (bareSections (rowToDict rowMid))).toJson)).id = row.id
    rw [(setCol_preserves rowMid _ _ hvmem).2.1]
    exact hmid2
  · intro g hg
    have hgmem : g ++ "_json" ∈ METADATA_FIELDS ++ ["validation_results_json"] :=
      List.mem_append_left _ (normalizeCol_section g hg).2
    rw [getCol_set_updatedAt _ _ _ hgmem]
    rw [getCol_setCol_ne rowMid _ "validation_results_json" (g ++ "_json")
      hvmem hgmem (validation_ne_section g hg)]
    exact hmidcols g hg

/-- A capture request carrying no section at all is rejected before touching
the store. -/
theorem handler_nofields (db : List DraftRow) (newId : String) (now : Nat)
    (args : CaptureArgs) (hmd : (collectMetadata args).isEmpty = true) :
    (capture_metadata_handler db newId now args).1 = db := by
  unfold capture_metadata_handler
  cases args.session_id with
  | none => rfl
  | some sid =>
    simp only [hmd, if_true]
    split <;> rfl

theorem mergeVal_none (v : Json) : mergeVal none v = v := by
  cases v <;> rfl

/-- One handler call preserves the capture invariant, extending the call
trace by the call's collected payload. -/
theorem C1Inv_step (db₀ : List DraftRow) (sid : String)
    (hdb₀ : ∀ r ∈ db₀, r.session_id ≠ sid) (hsid : sid ≠ "")
    (db : List DraftRow) (calls : List (List (String × Json)))
    (hinv : C1Inv db₀ sid db calls)
    (newId : String) (now : Nat) (args : CaptureArgs)
    (hargs : args.session_id = some sid)
    (hfresh : ∀ r ∈ db₀, r.id ≠ newId)
    (hcallsobj : ∀ c ∈ calls, ∀ p ∈ c, ∃ ms, p.2 = Json.obj ms) :
    C1Inv db₀ sid (capture_metadata_handler db newId now args).1
      (calls ++ [collectMetadata args]) := by
  have hvmem : ("validation_results_json" : String) ∈
      METADATA_FIELDS ++ ["validation_results_json"] := by decide
  cases hmd : (collectMetadata args).isEmpty with
  | true =>
    have hnil : collectMetadata args = [] := List.isEmpty_iff.mp hmd
    rw [handler_nofields db newId now args hmd, hnil]
    rcases hinv with ⟨h1, h2⟩ | ⟨row, h1, h2, h3, h4⟩
    · exact Or.inl ⟨h1, fun f => by rw [sectionState_append_nilcall]; exact h2 f⟩
    · exact Or.inr ⟨row, h1, h2, h3, fun f hf => by
        rw [sectionState_append_nilcall]; exact h4 f hf⟩
  | false =>
    rcases hinv with ⟨h1, h2⟩ | ⟨row, h1, h2, h3, h4⟩
    · subst h1
      obtain ⟨vtext, heq⟩ := handler_creates db sid newId now args hdb₀ hsid hargs hfresh hmd
      refine Or.inr ⟨_, heq, ?_, ?_, ?_⟩
      · show ((mkDraftRow newId now sid (collectMetadata args)).setCol
          "validation_results_json" vtext).session_id = sid
        rw [(setCol_preserves _ _ _ hvmem).1]
        rfl
      · intro r hr
        show r.id ≠ ((mkDraftRow newId now sid (collectMetadata args)).setCol
          "validation_results_json" vtext).id
        rw [(setCol_preserves _ _ _ hvmem).2.1]
        exact hfresh r hr
      · intro f hf
        have hgmem : f ++ "_json" ∈ METADATA_FIELDS ++ ["validation_results_json"] :=
          List.mem_append_left _ (normalizeCol_section f hf).2
        rw [getCol_set_updatedAt _ _ _ hgmem,
          getCol_setCol_ne _ _ _ _ hvmem hgmem (validation_ne_section f hf),
          mkDraftRow_getCol newId now sid _ f hf,
          sectionState_append, h2 f]
        cases hlk : List.lookup f (collectMetadata args) with
        | none => rfl
        | some v =>
          show Option.map serializeValue (some v) =
            Option.map serializeValue (some (mergeVal none v))
          rw [mergeVal_none]
    · subst h1
      obtain ⟨rowEnd, heq, he1, he2, hcols⟩ :=
        handler_merges db₀ row sid newId now args hdb₀ hsid hargs h2 h3 hmd
      refine Or.inr ⟨rowEnd, heq, he1, ?_, ?_⟩
      · intro r hr
        rw [he2]
        exact h3 r hr
      · intro f hf
        have hdec : (rowToDict row).getCol (f ++ "_json") = sectionState calls f := by
          rw [rowToDict_getCol row _
            (List.mem_append_left _ (normalizeCol_section f hf).2), h4 f hf]
          exact decodeField_state _ (sectionState_obj calls f hcallsobj)
        rw [hcols f hf, sectionState_append, hdec]
        cases hlk : List.lookup f (collectMetadata args) with
        | none => exact h4 f hf
        | some v => rfl

/-- Was the top-level sub-key `k` of section `f` ever supplied by a call
whose value for `f` is a mapping holding `k`? -/
def subSuppliedIn (calls : List (List (String × Json))) (f k : String) : Bool :=
  calls.any fun c =>
    match List.lookup f c with
    | some (Json.obj m) => (List.lookup k m).isSome
    | _ => false

theorem lastSub_isSome (calls : List (List (String × Json))) (f k : String) :
    (lastSub calls f k).isSome = subSuppliedIn calls f k := by
  induction calls using List.reverseRecOn with
  | nil => rfl
  | append_singleton calls c ih =>
    rw [lastSub_append]
    unfold subSuppliedIn
    rw [List.any_append]
    cases hlk : List.lookup f c with
    | none => simp [List.any, hlk, ih, subSuppliedIn]
    | some v =>
      cases v with
      | null => simp [List.any, hlk, ih, subSuppliedIn]
      | bool b => simp [List.any, hlk, ih, subSuppliedIn]
      | num n => simp [List.any, hlk, ih, subSuppliedIn]
      | str s => simp [List.any, hlk, ih, subSuppliedIn]
      | arr xs => simp [List.any, hlk, ih, subSuppliedIn]
      | obj m =>
        cases hkm : List.lookup k m with
        | none => simp [List.any, hlk, hkm, ih, subSuppliedIn]
        | some w => simp [List.any, hlk, hkm]

/-- A sequence of capture calls against one store: each step carries the
fresh row id and clock value its handler call receives, plus the request
arguments. -/
def runCaptures (db : List DraftRow) (steps : List (String × Nat × CaptureArgs)) :
    List DraftRow :=
  steps.foldl (fun acc s => (capture_metadata_handler acc s.1 s.2.1 s.2.2).1) db

/-- The per-call payloads of a capture sequence. -/
def callsOf (steps : List (String × Nat × CaptureArgs)) :
    List (List (String × Json)) :=
  steps.map fun s => collectMetadata s.2.2

theorem runCaptures_append (db : List DraftRow)
    (steps : List (String × Nat × CaptureArgs)) (s : String × Nat × CaptureArgs) :
    runCaptures db (steps ++ [s]) =
      (capture_metadata_handler (runCaptures db steps) s.1 s.2.1 s.2.2).1 := by
  unfold runCaptures
  rw [List.foldl_append]
  rfl

theorem callsOf_append (steps : List (String × Nat × CaptureArgs))
    (s : String × Nat × CaptureArgs) :
    callsOf (steps ++ [s]) = callsOf steps ++ [collectMetadata s.2.2] := by
  simp [callsOf]

theorem callsOf_obj (steps : List (String × Nat × CaptureArgs))
    (hobj : ∀ s ∈ steps, ∀ f v, s.2.2.get f = some v → ∃ ms, v = Json.obj ms) :
    ∀ c ∈ callsOf steps, ∀ p ∈ c, ∃ ms, p.2 = Json.obj ms := by
  intro c hc
  obtain ⟨s, hs, rfl⟩ := List.mem_map.mp hc
  exact collectMetadata_obj s.2.2 (hobj s hs)

/-- The capture invariant holds after any run of handler calls for the
session, relative to the run's payload trace. -/
theorem runCaptures_inv (db₀ : List DraftRow) (sid : String)
    (hdb₀ : ∀ r ∈ db₀, r.session_id ≠ sid) (hsid : sid ≠ "")
    (steps : List (String × Nat × CaptureArgs))
    (hsess : ∀ s ∈ steps, s.2.2.session_id = some sid)
    (hfresh : ∀ s ∈ steps, ∀ r ∈ db₀, r.id ≠ s.1)
    (hobj : ∀ s ∈ steps, ∀ f v, s.2.2.get f = some v → ∃ ms, v = Json.obj ms) :
    C1Inv db₀ sid (runCaptures db₀ steps) (callsOf steps) := by
  induction steps using List.reverseRecOn with
  | nil => exact Or.inl ⟨rfl, fun f => rfl⟩
  | append_singleton steps s ih =>
    rw [runCaptures_append, callsOf_append]
    have hprev := ih (fun t ht => hsess t (List.mem_append_left _ ht))
      (fun t ht => hfresh t (List.mem_append_left _ ht))
      (fun t ht => hobj t (List.mem_append_left _ ht))
    exact C1Inv_step db₀ sid hdb₀ hsid _ _ hprev s.1 s.2.1 s.2.2
      (hsess s (List.mem_append_right _ (List.mem_singleton_self s)))
      (fun r hr => hfresh s (List.mem_append_right _ (List.mem_singleton_self s)) r hr)
      (callsOf_obj steps (fun t ht => hobj t (List.mem_append_left _ ht)))

/-- C1: over any sequence of capture calls on one fresh session whose
section values are mappings, the stored section is the iterated shallow
union of the successive values: the decoded stored section equals the pure
merge state; it is present exactly when the section was ever supplied; each
top-level key holds the value of the latest call that supplied it,
replacing any nested structure wholesale; and a key is present exactly when
some call supplied it. -/
theorem capture_shallow_union (db₀ : List DraftRow) (sid : String)
    (steps : List (String × Nat × CaptureArgs))
    (hdb₀ : ∀ r ∈ db₀, r.session_id ≠ sid) (hsid : sid ≠ "")
    (hsess : ∀ s ∈ steps, s.2.2.session_id = some sid)
    (hfresh : ∀ s ∈ steps, ∀ r ∈ db₀, r.id ≠ s.1)
    (hobj : ∀ s ∈ steps, ∀ f v, s.2.2.get f = some v → ∃ ms, v = Json.obj ms) :
    ∀ f ∈ captureFields,
      sectionValue (runCaptures db₀ steps) sid f = sectionState (callsOf steps) f ∧
      (sectionValue (runCaptures db₀ steps) sid f).isSome =
        suppliedIn (callsOf steps) f ∧
      ∀ k, getKeyOpt (sectionValue (runCaptures db₀ steps) sid f) k =
          lastSub (callsOf steps) f k ∧
        (getKeyOpt (sectionValue (runCaptures db₀ steps) sid f) k).isSome =
          subSuppliedIn (callsOf steps) f k := by
  have hcallsobj := callsOf_obj steps hobj
  have hinv := runCaptures_inv db₀ sid hdb₀ hsid steps hsess hfresh hobj
  intro f hf
  have hmain : sectionValue (runCaptures db₀ steps) sid f =
      sectionState (callsOf steps) f := by
    rcases hinv with ⟨h1, h2⟩ | ⟨row, h1, h2, h3, h4⟩
    · rw [h1]
      unfold sectionValue
      rw [get_draft_metadata_none db₀ sid hdb₀]
      exact (h2 f).symm
    · rw [h1]
      unfold sectionValue
      rw [get_draft_metadata_single db₀ row sid hdb₀ h2]
      show (rowToDict row).getCol (f ++ "_json") = _
      rw [rowToDict_getCol row _
        (List.mem_append_left _ (normalizeCol_section f hf).2), h4 f hf]
      exact decodeField_state _ (sectionState_obj _ f hcallsobj)
  refine ⟨hmain, ?_, ?_⟩
  · rw [hmain, sectionState_isSome]
  · intro k
    rw [hmain, sectionState_sub _ f k hcallsobj]
    exact ⟨rfl, lastSub_isSome _ f k⟩

/-- A concrete two-call capture sequence on session `s1`: the first call
supplies subject keys `a`, `b` and a nested `n`; the second overrides `b`
and `n`. -/
def w1steps : List (String × Nat × CaptureArgs) :=
  [("id1", 1, { session_id := some "s1", subject := some (Json.obj [("a", Json.num 1), ("b", Json.num 2), ("n", Json.obj [("x", Json.num 7)])]) }),
   ("id2", 2, { session_id := some "s1", subject := some (Json.obj [("b", Json.num 3), ("n", Json.obj [("y", Json.num 9)])]) })]

set_option maxHeartbeats 2000000 in
theorem capture_shallow_union_witness :
    getKeyOpt (sectionValue (runCaptures [] w1steps) "s1" "subject") "a" =
      some (Json.num 1) ∧
    getKeyOpt (sectionValue (runCaptures [] w1steps) "s1" "subject") "b" =
      some (Json.num 3) ∧
    getKeyOpt (sectionValue (runCaptures [] w1steps) "s1" "subject") "n" =
      some (Json.obj [("y", Json.num 9)]) ∧
    (sectionValue (runCaptures [] w1steps) "s1" "subject").isSome = true := by
  have h := capture_shallow_union [] "s1" w1steps
    (fun r hr => absurd hr (List.not_mem_nil r))
    (by decide)
    (by intro s hs; fin_cases hs <;> rfl)
    (fun s hs r hr => absurd hr (List.not_mem_nil r))
    (by
      intro s hs f v hv
      fin_cases hs <;>
        (unfold CaptureArgs.get at hv
         split_ifs at hv <;>
           first
             | exact Option.noConfusion hv
             | exact ⟨_, (Option.some.inj hv).symm⟩)
    )
  have hsub := h "subject" (by decide)
  refine ⟨?_, ?_, ?_, ?_⟩
  · rw [(hsub.2.2 "a").1]
    rfl
  · rw [(hsub.2.2 "b").1]
    rfl
  · rw [(hsub.2.2 "n").1]
    rfl
  · rw [hsub.2.1]
    rfl
